import Mathlib

/-!
# itkImageBase: dimension, size, spacing and origin of an image

A shallow embedding of `Code/Common/itkImageBase.cxx`.

* The three raw arrays `m_Size`, `m_Spacing`, `m_Origin` are pointers: `none` is
  the null pointer, `some b` points at a block `b` obtained from `new[]`, which
  carries the address it was handed out at and its cells.
* The free store is explicit: every `new[]` and every `delete[]` is recorded, so
  that ownership can be stated.
* Memory that C++ leaves indeterminate (the cells of a fresh `new T[n]`, and the
  local `bool modified;` of the three setters) is a parameter of the model.
* `float` is an IEEE-754 binary32 bit pattern; the only float operations of the
  source are assignment and `!=`, and both are modelled exactly.
* Reading outside a block, or through a null or released pointer, is undefined
  behaviour: the setters return `none` there.
-/

/-! ## float -/

/-- A `float`: an IEEE-754 binary32 bit pattern. -/
structure F32 where
  bits : Fin 4294967296
  deriving DecidableEq, Repr

namespace F32

/-- The biased exponent field (bits 23..30). -/
def exponent (x : F32) : Nat := x.bits.val / 8388608 % 256

/-- The fraction field (bits 0..22). -/
def fraction (x : F32) : Nat := x.bits.val % 8388608

/-- A NaN has all exponent bits set and a non-zero fraction. -/
def isNaN (x : F32) : Bool := x.exponent == 255 && x.fraction != 0

/-- Both `+0.0f` and `-0.0f`: everything but the sign bit is clear. -/
def isZero (x : F32) : Bool := x.bits.val % 2147483648 == 0

/-- The C++ `a != b` on `float`: true when either side is a NaN; otherwise the
two are unequal unless they have the same bits or are both zeros. -/
def ne (a b : F32) : Bool :=
  a.isNaN || b.isNaN || (a.bits != b.bits && !(a.isZero && b.isZero))

/-- Two floats hold the same value: they have the same bits, or both are zeros
(`+0.0f` and `-0.0f` are one number with two bit patterns, and compare equal). -/
def sameValue (a b : F32) : Prop := a = b ∨ (a.isZero = true ∧ b.isZero = true)

instance (a b : F32) : Decidable (sameValue a b) := by
  unfold sameValue; exact inferInstance

end F32

/-- The C++ `a != b` on `int`. -/
def intNe (a b : Int) : Bool := a != b

/-! ## The free store -/

/-- The block a non-null array pointer points at: the address `new[]` returned
and the cells stored there. -/
structure Block (α : Type) where
  addr : Nat
  cells : List α
  deriving DecidableEq, Repr

/-- The free store, as far as this class uses it. `next` is the address the next
`new[]` returns (addresses are never handed out twice), `live` the addresses
allocated and not yet released, `released` the address of every `delete[]`
executed so far, most recent first. -/
structure Heap where
  next : Nat
  live : List Nat
  released : List Nat
  deriving DecidableEq, Repr

/-- What indeterminate memory happens to hold: the cell found at a given
address and index of a fresh `new int[n]` or `new float[n]`. -/
structure Uninit where
  ints : Nat → Nat → Int
  floats : Nat → Nat → F32

/-- The expression `new T[n]`: a block of `n` cells with indeterminate contents
(`init` at the new address), at a fresh address. Also for `n = 0`, where C++
returns a non-null pointer to a zero-length array. -/
def Heap.newArray {α : Type} (h : Heap) (n : Nat) (init : Nat → Nat → α) :
    Block α × Heap :=
  ({ addr := h.next, cells := (List.range n).map (init h.next) },
   { next := h.next + 1, live := h.next :: h.live, released := h.released })

/-- The statement `delete [] p`: nothing for a null pointer; otherwise the
address leaves `live` and the release is recorded. Releasing an address that is
no longer live is undefined behaviour in C++ (see `Heap.deleteDefined`); it is
recorded just the same, so that it shows as a second entry in `released`, and
what the model computes after it says nothing about the program. -/
def Heap.deleteArray {α : Type} (h : Heap) : Option (Block α) → Heap
  | none => h
  | some b => { h with live := h.live.erase b.addr, released := b.addr :: h.released }

/-! ## The base class -/

/-- Modelled from the spec: the base class `itkDataObject`, whose source is not
part of this module. It stores the dimension ("the single source of truth for
current dimensionality") and receives the change notifications; `modifiedCount`
counts the calls of `Modified()`. -/
structure itkDataObject where
  m_Dimension : Int
  modifiedCount : Nat
  deriving DecidableEq, Repr

/-- Modelled from the spec: the `itkDataObject` constructor; a new object has
`Dimension == 0` and has sent no notification. -/
def itkDataObject.New : itkDataObject := { m_Dimension := 0, modifiedCount := 0 }

/-- Modelled from the spec: `itkDataObject::GetDimension()` returns the stored
dimension. -/
def itkDataObject.GetDimension (o : itkDataObject) : Int := o.m_Dimension

/-- Modelled from the spec: `itkDataObject::SetDimension(int)` stores the
dimension and does nothing else. -/
def itkDataObject.SetDimension (o : itkDataObject) (dim : Int) : itkDataObject :=
  { o with m_Dimension := dim }

/-- Modelled from the spec: `itkDataObject::Modified()`, the zero-argument
change notification. -/
def itkDataObject.Modified (o : itkDataObject) : itkDataObject :=
  { o with modifiedCount := o.modifiedCount + 1 }

/-! ## itkImageBase -/

/-- An `itkImageBase` object together with the free store it allocates from. -/
structure itkImageBase where
  base : itkDataObject
  m_Size : Option (Block Int)
  m_Spacing : Option (Block F32)
  m_Origin : Option (Block F32)
  heap : Heap
  deriving DecidableEq, Repr

namespace itkImageBase

/-- The constructor `itkImageBase::itkImageBase()` on an empty free store: the
three pointers are null. -/
def New : itkImageBase :=
  { base := itkDataObject.New
    m_Size := none
    m_Spacing := none
    m_Origin := none
    heap := { next := 1, live := [], released := [] } }

/-- The inherited `GetDimension()`. -/
def GetDimension (s : itkImageBase) : Int := s.base.GetDimension

/-- The inherited `Modified()`. -/
def Modified (s : itkImageBase) : itkImageBase := { s with base := s.base.Modified }

/-- The number of notifications sent so far. -/
def notifications (s : itkImageBase) : Nat := s.base.modifiedCount

/-- `itkImageBase::Initialize()`: when `m_Size` is not null the three arrays are
released (the pointers keep their values); then the dimension is set to -1. -/
def Initialize (s : itkImageBase) : itkImageBase :=
  let heap :=
    if s.m_Size.isSome then
      ((s.heap.deleteArray s.m_Size).deleteArray s.m_Spacing).deleteArray s.m_Origin
    else s.heap
  { s with heap := heap, base := s.base.SetDimension (-1) }

/-- The destructor `itkImageBase::~itkImageBase()`. -/
def Destroy (s : itkImageBase) : itkImageBase := s.Initialize

/-- `itkImageBase::SetDimension(int dim)`. -/
def SetDimension (u : Uninit) (dim : Int) (s : itkImageBase) : itkImageBase :=
  let dim := if dim < 0 then 0 else dim
  if dim ≠ s.GetDimension then
    let s := s.Initialize
    let s := { s with base := s.base.SetDimension dim }
    let (size, h) := s.heap.newArray dim.toNat u.ints
    let (spacing, h) := h.newArray dim.toNat u.floats
    let (origin, h) := h.newArray dim.toNat u.floats
    let s := { s with m_Size := some size, m_Spacing := some spacing,
                      m_Origin := some origin, heap := h }
    s.Modified
  else s

/-- The loop shared, word for word, by the three setters:
`for (i = ..; i < dim; i++) if (arr[i] != in[i]) { arr[i] = in[i]; modified = true; }`
with `k` iterations left to run from index `i`. Reading `arr[i]` or `in[i]`
outside the array is undefined behaviour (`none`). -/
def setLoop {α : Type} (ne : α → α → Bool) (input : List α) :
    Nat → Nat → List α → Bool → Option (List α × Bool)
  | 0, _, cells, modified => some (cells, modified)
  | k + 1, i, cells, modified =>
    match cells[i]?, input[i]? with
    | some c, some v =>
      if ne c v then setLoop ne input k (i + 1) (cells.set i v) true
      else setLoop ne input k (i + 1) cells modified
    | _, _ => none

/-- The body of a setter on one array. The loop runs for `i = 0 .. dim - 1`. It
touches the array only when it iterates; then a null pointer or a pointer to a
released block is undefined behaviour. `modified` is the indeterminate initial
value of the local `bool modified;`. -/
def setArray {α : Type} (ne : α → α → Bool) (live : List Nat) (dim : Int)
    (modified : Bool) (input : List α) (arr : Option (Block α)) :
    Option (Option (Block α) × Bool) :=
  if dim.toNat = 0 then some (arr, modified)
  else
    match arr with
    | none => none
    | some b =>
      if b.addr ∈ live then
        (setLoop ne input dim.toNat 0 b.cells modified).map
          (fun r => (some { b with cells := r.1 }, r.2))
      else none

/-- The closing `if ( modified ) this->Modified();` of a setter. -/
def notifyIf (modified : Bool) (s : itkImageBase) : itkImageBase :=
  if modified then s.Modified else s

/-- `itkImageBase::SetSize(int *size)`. The local `modified` is declared without
an initialiser; `modified0` is the value it happens to start with. -/
def SetSize (modified0 : Bool) (size : List Int) (s : itkImageBase) :
    Option itkImageBase :=
  (setArray intNe s.heap.live s.GetDimension modified0 size s.m_Size).map
    (fun r => notifyIf r.2 { s with m_Size := r.1 })

/-- `itkImageBase::SetSpacing(float *spacing)`. -/
def SetSpacing (modified0 : Bool) (spacing : List F32) (s : itkImageBase) :
    Option itkImageBase :=
  (setArray F32.ne s.heap.live s.GetDimension modified0 spacing s.m_Spacing).map
    (fun r => notifyIf r.2 { s with m_Spacing := r.1 })

/-- `itkImageBase::SetOrigin(float *origin)`. -/
def SetOrigin (modified0 : Bool) (origin : List F32) (s : itkImageBase) :
    Option itkImageBase :=
  (setArray F32.ne s.heap.live s.GetDimension modified0 origin s.m_Origin).map
    (fun r => notifyIf r.2 { s with m_Origin := r.1 })

end itkImageBase

/-! ## Vocabulary for the statements -/

/-- A float from its bit pattern, given as a natural number. -/
def F32.ofBits (n : Nat) : F32 := ⟨Fin.ofNat n⟩

/-- The length of the array behind a pointer; a null pointer has no cells. -/
def arrayLength {α : Type} : Option (Block α) → Nat
  | none => 0
  | some b => b.cells.length

/-- What one iteration of the setter loop leaves in a cell that held `c` when the
input is `v`. -/
def assignCell {α : Type} (ne : α → α → Bool) (c v : α) : α := if ne c v then v else c

/-- Some axis of the stored cells differs, under the test `ne`, from the input. -/
def anyDiffers {α : Type} (ne : α → α → Bool) (cells input : List α) : Bool :=
  (List.zipWith ne cells input).any id

namespace itkImageBase

/-- A pointer is usable for a dimension `n`: it points at a live block of `n`
cells. -/
def holds {α : Type} (live : List Nat) (n : Nat) (arr : Option (Block α)) (b : Block α) :
    Prop :=
  arr = some b ∧ b.addr ∈ live ∧ b.cells.length = n

instance {α : Type} [DecidableEq α] (live : List Nat) (n : Nat) (arr : Option (Block α))
    (b : Block α) : Decidable (holds live n arr b) := by
  unfold holds; exact inferInstance

/-- A sequence of `SetDimension` calls, first call first. -/
def configureAll (u : Uninit) : List Int → itkImageBase → itkImageBase
  | [], s => s
  | d :: ds, s => configureAll u ds (SetDimension u d s)

end itkImageBase

namespace itkImageBase

/-- The three pointers are null. -/
def arraysAbsent (s : itkImageBase) : Prop :=
  s.m_Size = none ∧ s.m_Spacing = none ∧ s.m_Origin = none

/-- The three pointers hold three live blocks of `n` cells each, allocated one
after the other at `a`, `a + 1`, `a + 2`, and these are all the live blocks. -/
def arraysHeld (s : itkImageBase) (n a : Nat) : Prop :=
  (∃ c, s.m_Size = some { addr := a, cells := c } ∧ c.length = n) ∧
  (∃ c, s.m_Spacing = some { addr := a + 1, cells := c } ∧ c.length = n) ∧
  (∃ c, s.m_Origin = some { addr := a + 2, cells := c } ∧ c.length = n) ∧
  s.heap.live = [a + 2, a + 1, a] ∧ s.heap.next = a + 3

/-- The shape of an object that has only seen `SetDimension` calls and setter
calls: it is as constructed, or it holds three live arrays of `Dimension` cells. -/
def Configured (s : itkImageBase) : Prop :=
  s = New ∨ ∃ n a : Nat, s.GetDimension = n ∧ arraysHeld s n a

end itkImageBase

namespace itkImageBase

/-- The release record of an object that has only seen `SetDimension` calls on
the free store of `New`, where `new[]` hands out the addresses 1, 2, 3, ... in
turn: the object is as constructed, or it holds its three arrays at `a`, `a + 1`,
`a + 2` and every address handed out before `a` has been released, exactly once,
while none of the three held has. -/
def Accounted (s : itkImageBase) : Prop :=
  s = New ∨ ∃ n a : Nat, s.GetDimension = n ∧ arraysHeld s n a ∧ 1 ≤ a ∧
    s.heap.released.Nodup ∧ ∀ x, x ∈ s.heap.released ↔ 1 ≤ x ∧ x < a

end itkImageBase

/-! ## Defined behaviour of delete[] -/

/-- Whether `delete [] p` has defined behaviour: `p` is null or points at a live
block. Releasing a block that has already been released is undefined. -/
def Heap.deleteDefined {α : Type} (h : Heap) : Option (Block α) → Bool
  | none => true
  | some b => h.live.contains b.addr

namespace itkImageBase

/-- Whether the `delete[]` statements that `Initialize()` executes on `s` all
have defined behaviour, each on the free store as the ones before it left it. -/
def InitializeDefined (s : itkImageBase) : Bool :=
  if s.m_Size.isSome then
    s.heap.deleteDefined s.m_Size &&
    (s.heap.deleteArray s.m_Size).deleteDefined s.m_Spacing &&
    ((s.heap.deleteArray s.m_Size).deleteArray s.m_Spacing).deleteDefined s.m_Origin
  else true

/-- Whether `SetDimension(dim)` on `s` has defined behaviour: its change branch
runs `Initialize()`; the other branch does nothing. -/
def SetDimensionDefined (dim : Int) (s : itkImageBase) : Bool :=
  let dim := if dim < 0 then 0 else dim
  if dim ≠ s.GetDimension then s.InitializeDefined else true

end itkImageBase

/-! ## Concrete data for the examples -/

/-- The float `0.0f`. -/
def F32.zero : F32 := F32.ofBits 0

/-- The float `-0.0f`. -/
def F32.negZero : F32 := F32.ofBits 0x80000000

/-- The float `1.0f`. -/
def F32.one : F32 := F32.ofBits 0x3F800000

/-- The float `2.0f`. -/
def F32.two : F32 := F32.ofBits 0x40000000

/-- Fresh memory that holds the same `int` and the same `float` in every cell. -/
def Uninit.const (i : Int) (f : F32) : Uninit := { ints := fun _ _ => i, floats := fun _ _ => f }

/-- Fresh memory that happens to be all zero bits. -/
def Uninit.zeros : Uninit := Uninit.const 0 F32.zero

/-! ## The setter loop -/

theorem getElem?_append_length {α : Type} (pre : List α) (c : α) (rest : List α) :
    (pre ++ c :: rest)[pre.length]? = some c := by
  rw [List.getElem?_append_right (Nat.le_refl _)]
  simp

theorem set_append_length {α : Type} (pre : List α) (c v : α) (rest : List α) :
    (pre ++ c :: rest).set pre.length v = pre ++ v :: rest := by
  simp

/-- The loop in closed form: started at index `pre.length` on `pre ++ rest` with
enough input, it runs to the end, leaves `pre` alone and assigns cell by cell. -/
theorem itkImageBase.setLoop_closed {α : Type} (ne : α → α → Bool) (input : List α) :
    ∀ (rest pre : List α) (m : Bool), pre.length + rest.length ≤ input.length →
      itkImageBase.setLoop ne input rest.length pre.length (pre ++ rest) m =
        some (pre ++ List.zipWith (assignCell ne) rest (input.drop pre.length),
              m || anyDiffers ne rest (input.drop pre.length)) := by
  intro rest
  induction rest with
  | nil => intro pre m _; simp [itkImageBase.setLoop, anyDiffers]
  | cons c rest ih =>
    intro pre m h
    have hlt : pre.length < input.length := by simp at h; omega
    have hdrop : input.drop pre.length = input[pre.length] :: input.drop (pre.length + 1) :=
      List.drop_eq_getElem_cons hlt
    have hin : input[pre.length]? = some input[pre.length] := List.getElem?_eq_getElem hlt
    have h1 : (pre ++ [input[pre.length]]).length = pre.length + 1 := by simp
    have h2 : (pre ++ [c]).length = pre.length + 1 := by simp
    have hle : pre.length + 1 + rest.length ≤ input.length := by simp at h; omega
    simp only [List.length_cons, itkImageBase.setLoop, getElem?_append_length, hin, hdrop,
      set_append_length, List.zipWith_cons_cons, anyDiffers, List.any_cons, id]
    by_cases hne : ne c input[pre.length] = true
    · have := ih (pre ++ [input[pre.length]]) true (by rw [h1]; exact hle)
      rw [h1] at this
      simp only [List.append_assoc, List.singleton_append] at this
      simp [hne, this, assignCell]
    · have := ih (pre ++ [c]) m (by rw [h2]; exact hle)
      rw [h2] at this
      simp only [List.append_assoc, List.singleton_append] at this
      simp [hne, this, assignCell, anyDiffers]

theorem zipWith_assignCell_length {α : Type} (ne : α → α → Bool) (cells input : List α)
    (h : cells.length ≤ input.length) :
    (List.zipWith (assignCell ne) cells input).length = cells.length := by
  simp [List.length_zipWith, h]

/-- When no axis differs the cells stay as they are. -/
theorem zipWith_assignCell_of_not_differs {α : Type} (ne : α → α → Bool) :
    ∀ (cells input : List α), cells.length ≤ input.length →
      anyDiffers ne cells input = false → List.zipWith (assignCell ne) cells input = cells
  | [], _, _, _ => by simp
  | c :: cells, [], h, _ => by simp at h
  | c :: cells, v :: input, h, hd => by
    simp only [anyDiffers, List.zipWith_cons_cons, List.any_cons, id, Bool.or_eq_false_iff] at hd
    have ih := zipWith_assignCell_of_not_differs ne cells input
      (by simpa using h) (by simpa [anyDiffers] using hd.2)
    simp [assignCell, hd.1, ih]

/-- When the test `ne` separates distinct values (as `!=` on `int` does), the
cells end up being the input. -/
theorem zipWith_assignCell_eq_input {α : Type} (ne : α → α → Bool)
    (hsep : ∀ c v, ne c v = false → c = v) :
    ∀ (cells input : List α), cells.length = input.length →
      List.zipWith (assignCell ne) cells input = input
  | [], [], _ => by simp
  | [], _ :: _, h => by simp at h
  | _ :: _, [], h => by simp at h
  | c :: cells, v :: input, h => by
    have ih := zipWith_assignCell_eq_input ne hsep cells input (by simpa using h)
    by_cases hne : ne c v = true
    · simp [assignCell, hne, ih]
    · have hcv : c = v := hsep c v (by simpa using hne)
      simp [assignCell, hcv, ih]

/-- Floats that `!=` does not tell apart hold the same value. -/
theorem F32.sameValue_of_not_ne (a b : F32) (h : F32.ne a b = false) : F32.sameValue a b := by
  simp only [F32.ne, Bool.or_eq_false_iff, Bool.and_eq_false_iff, bne_eq_false_iff_eq,
    Bool.not_eq_false'] at h
  rcases h.2 with hb | hz
  · left
    cases a; cases b
    simp only at hb
    rw [hb]
  · right
    simpa using hz

/-- After the loop every axis holds the same float value as the input. -/
theorem zipWith_assignCell_sameValue :
    ∀ (cells input : List F32), cells.length = input.length →
      List.Forall₂ F32.sameValue (List.zipWith (assignCell F32.ne) cells input) input
  | [], [], _ => by simp
  | [], _ :: _, h => by simp at h
  | _ :: _, [], h => by simp at h
  | c :: cells, v :: input, h => by
    have ih := zipWith_assignCell_sameValue cells input (by simpa using h)
    simp only [List.zipWith_cons_cons, List.forall₂_cons]
    refine ⟨?_, ih⟩
    by_cases hne : F32.ne c v = true
    · left; simp [assignCell, hne]
    · have hs := F32.sameValue_of_not_ne c v (by simpa using hne)
      simpa [assignCell, hne] using hs

namespace itkImageBase

/-- With a non-positive dimension the loop does not iterate: the array is not
even looked at. -/
theorem setArray_of_no_axis {α : Type} (ne : α → α → Bool) (live : List Nat) (dim : Int)
    (m : Bool) (input : List α) (arr : Option (Block α)) (h : dim.toNat = 0) :
    setArray ne live dim m input arr = some (arr, m) := by
  simp [setArray, h]

/-- A setter body on a live block of `dim` cells, with at least `dim` input
values, in closed form. -/
theorem setArray_closed {α : Type} (ne : α → α → Bool) (live : List Nat) (dim : Int)
    (m : Bool) (input : List α) (b : Block α) (hlive : b.addr ∈ live)
    (hlen : b.cells.length = dim.toNat) (hin : dim.toNat ≤ input.length) :
    setArray ne live dim m input (some b) =
      some (some { b with cells := List.zipWith (assignCell ne) b.cells input },
            m || anyDiffers ne b.cells input) := by
  have h := setLoop_closed ne input b.cells [] m (by simpa [hlen] using hin)
  simp only [List.length_nil, List.nil_append, List.drop_zero, hlen] at h
  by_cases h0 : dim.toNat = 0
  · have hnil : b.cells = [] := List.length_eq_zero.mp (hlen.trans h0)
    cases b with
    | mk addr cells =>
      simp only at hnil
      subst hnil
      simp [setArray, h0, anyDiffers]
  · simp [setArray, h0, hlive, h]

theorem notifications_notifyIf (m : Bool) (s : itkImageBase) :
    (notifyIf m s).notifications = s.notifications + (if m then 1 else 0) := by
  cases m <;> simp [notifyIf, notifications, Modified, itkDataObject.Modified]

end itkImageBase

/-! ## The setters on a usable array -/

namespace itkImageBase

theorem intNe_separates (c v : Int) (h : intNe c v = false) : c = v := by
  simpa [intNe] using h

theorem SetSize_closed (m0 : Bool) (size : List Int) (s : itkImageBase) (n : Nat)
    (b : Block Int) (hdim : s.GetDimension = n) (hb : holds s.heap.live n s.m_Size b)
    (hin : n ≤ size.length) :
    SetSize m0 size s =
      some (notifyIf (m0 || anyDiffers intNe b.cells size)
        { s with m_Size := some { b with cells := List.zipWith (assignCell intNe) b.cells size } }) := by
  obtain ⟨hp, hlive, hlen⟩ := hb
  have h := setArray_closed intNe s.heap.live s.GetDimension m0 size b hlive
    (by simp [hdim, hlen]) (by simpa [hdim] using hin)
  simp [SetSize, hp, h]

theorem SetSpacing_closed (m0 : Bool) (spacing : List F32) (s : itkImageBase) (n : Nat)
    (b : Block F32) (hdim : s.GetDimension = n) (hb : holds s.heap.live n s.m_Spacing b)
    (hin : n ≤ spacing.length) :
    SetSpacing m0 spacing s =
      some (notifyIf (m0 || anyDiffers F32.ne b.cells spacing)
        { s with
          m_Spacing := some { b with cells := List.zipWith (assignCell F32.ne) b.cells spacing } }) := by
  obtain ⟨hp, hlive, hlen⟩ := hb
  have h := setArray_closed F32.ne s.heap.live s.GetDimension m0 spacing b hlive
    (by simp [hdim, hlen]) (by simpa [hdim] using hin)
  simp [SetSpacing, hp, h]

theorem SetOrigin_closed (m0 : Bool) (origin : List F32) (s : itkImageBase) (n : Nat)
    (b : Block F32) (hdim : s.GetDimension = n) (hb : holds s.heap.live n s.m_Origin b)
    (hin : n ≤ origin.length) :
    SetOrigin m0 origin s =
      some (notifyIf (m0 || anyDiffers F32.ne b.cells origin)
        { s with
          m_Origin := some { b with cells := List.zipWith (assignCell F32.ne) b.cells origin } }) := by
  obtain ⟨hp, hlive, hlen⟩ := hb
  have h := setArray_closed F32.ne s.heap.live s.GetDimension m0 origin b hlive
    (by simp [hdim, hlen]) (by simpa [hdim] using hin)
  simp [SetOrigin, hp, h]

theorem m_Size_notifyIf (m : Bool) (s : itkImageBase) : (notifyIf m s).m_Size = s.m_Size := by
  cases m <;> rfl

theorem m_Spacing_notifyIf (m : Bool) (s : itkImageBase) :
    (notifyIf m s).m_Spacing = s.m_Spacing := by
  cases m <;> rfl

theorem m_Origin_notifyIf (m : Bool) (s : itkImageBase) :
    (notifyIf m s).m_Origin = s.m_Origin := by
  cases m <;> rfl

theorem heap_notifyIf (m : Bool) (s : itkImageBase) : (notifyIf m s).heap = s.heap := by
  cases m <;> rfl

theorem GetDimension_notifyIf (m : Bool) (s : itkImageBase) :
    (notifyIf m s).GetDimension = s.GetDimension := by
  cases m <;> rfl

/-- C2. In a state of dimension `n` whose array is usable, a setter called with
`n` values of which at least one differs (under `!=`) from the stored one returns,
has sent exactly one notification, whatever the local flag started as, and
leaves the input in the array: for `SetSize` the cells are the input; for
`SetSpacing` and `SetOrigin` every axis that differed holds the input value and
every other axis is untouched (`assignCell`), so that every axis holds the same
float value as the input. -/
theorem setter_changed_notifies_once (s : itkImageBase) (n : Nat) (m0 : Bool)
    (hdim : s.GetDimension = n) :
    (∀ (b : Block Int) (size : List Int), holds s.heap.live n s.m_Size b →
      size.length = n → anyDiffers intNe b.cells size = true →
      ∃ s', SetSize m0 size s = some s' ∧ s'.notifications = s.notifications + 1 ∧
        s'.m_Size = some { b with cells := size }) ∧
    (∀ (b : Block F32) (spacing : List F32), holds s.heap.live n s.m_Spacing b →
      spacing.length = n → anyDiffers F32.ne b.cells spacing = true →
      ∃ s', SetSpacing m0 spacing s = some s' ∧ s'.notifications = s.notifications + 1 ∧
        s'.m_Spacing =
          some { b with cells := List.zipWith (assignCell F32.ne) b.cells spacing } ∧
        List.Forall₂ F32.sameValue (List.zipWith (assignCell F32.ne) b.cells spacing) spacing) ∧
    (∀ (b : Block F32) (origin : List F32), holds s.heap.live n s.m_Origin b →
      origin.length = n → anyDiffers F32.ne b.cells origin = true →
      ∃ s', SetOrigin m0 origin s = some s' ∧ s'.notifications = s.notifications + 1 ∧
        s'.m_Origin =
          some { b with cells := List.zipWith (assignCell F32.ne) b.cells origin } ∧
        List.Forall₂ F32.sameValue (List.zipWith (assignCell F32.ne) b.cells origin) origin) := by
  refine ⟨?_, ?_, ?_⟩
  · intro b size hb hin hd
    refine ⟨_, SetSize_closed m0 size s n b hdim hb (le_of_eq hin.symm), ?_, ?_⟩
    · rw [notifications_notifyIf, hd, Bool.or_true]; rfl
    · rw [m_Size_notifyIf, zipWith_assignCell_eq_input intNe intNe_separates b.cells size
        (hb.2.2.trans hin.symm)]
  · intro b spacing hb hin hd
    refine ⟨_, SetSpacing_closed m0 spacing s n b hdim hb (le_of_eq hin.symm), ?_, ?_, ?_⟩
    · rw [notifications_notifyIf, hd, Bool.or_true]; rfl
    · rw [m_Spacing_notifyIf]
    · exact zipWith_assignCell_sameValue b.cells spacing (hb.2.2.trans hin.symm)
  · intro b origin hb hin hd
    refine ⟨_, SetOrigin_closed m0 origin s n b hdim hb (le_of_eq hin.symm), ?_, ?_, ?_⟩
    · rw [notifications_notifyIf, hd, Bool.or_true]; rfl
    · rw [m_Origin_notifyIf]
    · exact zipWith_assignCell_sameValue b.cells origin (hb.2.2.trans hin.symm)

end itkImageBase

/-- The theorem of C2 at `SetDimension(2); SetSize({10, 20})` on fresh zero memory:
both axes differ and one notification is added to that of `SetDimension`. -/
theorem setter_changed_notifies_once_witness :
    ∃ s', itkImageBase.SetSize false [10, 20]
        (itkImageBase.SetDimension Uninit.zeros 2 itkImageBase.New) = some s' ∧
      s'.notifications = 1 + 1 ∧ s'.m_Size = some { addr := 1, cells := [10, 20] } :=
  (itkImageBase.setter_changed_notifies_once
    (itkImageBase.SetDimension Uninit.zeros 2 itkImageBase.New) 2 false (by decide)).1
    { addr := 1, cells := [0, 0] } [10, 20] (by decide) rfl (by decide)

/-- C3 (the code departs from it). `SetSize({5})` on an object of dimension 1
whose size already is `{5}`: no axis differs, so `modified` is never assigned,
and when the uninitialised flag happens to start non-zero a notification is sent
all the same. The array itself is left as it was. -/
theorem SetSize_same_values_still_notifies :
    (itkImageBase.SetDimension (Uninit.const 5 F32.one) 1 itkImageBase.New).m_Size =
        some { addr := 1, cells := [5] } ∧
      (itkImageBase.SetDimension (Uninit.const 5 F32.one) 1 itkImageBase.New).notifications = 1 ∧
      (itkImageBase.SetSize true [5]
        (itkImageBase.SetDimension (Uninit.const 5 F32.one) 1 itkImageBase.New)).map
          (fun s' => (s'.m_Size, s'.notifications)) =
        some (some { addr := 1, cells := [5] }, 2) := by
  decide

/-! ## SetDimension -/

namespace itkImageBase

/-- The first statement of `SetDimension`, `dim = (dim < 0 ? 0 : dim)`, is
`max(dim, 0)`. -/
theorem clamp_eq_max (d : Int) : (if d < 0 then 0 else d) = max d 0 := by
  split <;> omega

theorem SetDimension_of_eq (u : Uninit) (d : Int) (s : itkImageBase)
    (h : max d 0 = s.GetDimension) : SetDimension u d s = s := by
  simp [SetDimension, clamp_eq_max, h]

theorem notifications_Initialize (s : itkImageBase) :
    s.Initialize.notifications = s.notifications := rfl

theorem GetDimension_SetDimension (u : Uninit) (d : Int) (s : itkImageBase) :
    (SetDimension u d s).GetDimension = max d 0 := by
  by_cases h : max d 0 = s.GetDimension
  · rw [SetDimension_of_eq u d s h, h]
  · simp only [SetDimension, clamp_eq_max, ne_eq, h, not_false_eq_true, if_true]
    rfl

theorem notifications_SetDimension_of_ne (u : Uninit) (d : Int) (s : itkImageBase)
    (h : max d 0 ≠ s.GetDimension) :
    (SetDimension u d s).notifications = s.notifications + 1 := by
  simp only [SetDimension, clamp_eq_max, ne_eq, h, not_false_eq_true, if_true]
  rfl

/-- C4. `SetDimension(d)` on an object whose dimension already is `max(d, 0)`
returns it as it was: same dimension, same pointers and cells, same free store,
no notification. The second of two consecutive `SetDimension(d)` calls is always
such a call, whatever the first one did, so the pair sends what the first call
sent (at most one notification). -/
theorem SetDimension_same_dimension_noop (u u' : Uninit) (s : itkImageBase) (d : Int) :
    (max d 0 = s.GetDimension → SetDimension u d s = s) ∧
    SetDimension u' d (SetDimension u d s) = SetDimension u d s ∧
    (SetDimension u' d (SetDimension u d s)).notifications ≤ s.notifications + 1 := by
  have h2 : SetDimension u' d (SetDimension u d s) = SetDimension u d s :=
    SetDimension_of_eq u' d _ (GetDimension_SetDimension u d s).symm
  refine ⟨SetDimension_of_eq u d s, h2, ?_⟩
  rw [h2]
  by_cases h : max d 0 = s.GetDimension
  · rw [SetDimension_of_eq u d s h]; omega
  · rw [notifications_SetDimension_of_ne u d s h]

/-- C6. A negative argument is clamped, not rejected: `SetDimension(d)` with
`d < 0` gives the very state `SetDimension(0)` gives (notifications included),
and after any `SetDimension` call the stored dimension is not negative. -/
theorem SetDimension_negative_is_zero (u : Uninit) (s : itkImageBase) (d : Int) :
    (d < 0 → SetDimension u d s = SetDimension u 0 s) ∧
    0 ≤ (SetDimension u d s).GetDimension := by
  constructor
  · intro hd
    simp [SetDimension, hd]
  · rw [GetDimension_SetDimension]
    exact le_max_right d 0

end itkImageBase

/-- The theorem of C4 on a fresh object configured to dimension 3: a second
`SetDimension(3)` changes nothing. -/
theorem SetDimension_same_dimension_noop_witness :
    itkImageBase.SetDimension Uninit.zeros 3
        (itkImageBase.SetDimension Uninit.zeros 3 itkImageBase.New) =
      itkImageBase.SetDimension Uninit.zeros 3 itkImageBase.New :=
  (itkImageBase.SetDimension_same_dimension_noop Uninit.zeros Uninit.zeros
    (itkImageBase.SetDimension Uninit.zeros 3 itkImageBase.New) 3).1 (by decide)

/-- The theorem of C6 at `SetDimension(-4)` on an object of dimension 3. -/
theorem SetDimension_negative_is_zero_witness :
    itkImageBase.SetDimension Uninit.zeros (-4)
        (itkImageBase.SetDimension Uninit.zeros 3 itkImageBase.New) =
      itkImageBase.SetDimension Uninit.zeros 0
        (itkImageBase.SetDimension Uninit.zeros 3 itkImageBase.New) :=
  (itkImageBase.SetDimension_negative_is_zero Uninit.zeros
    (itkImageBase.SetDimension Uninit.zeros 3 itkImageBase.New) (-4)).1 (by decide)

/-! ## Objects reached by SetDimension calls -/

namespace itkImageBase

/-- What `SetDimension` does when the dimension changes, field by field. -/
theorem SetDimension_of_ne (u : Uninit) (d : Int) (s : itkImageBase)
    (h : max d 0 ≠ s.GetDimension) :
    SetDimension u d s =
      { base := { m_Dimension := max d 0, modifiedCount := s.notifications + 1 }
        m_Size := some { addr := s.Initialize.heap.next,
                         cells := (List.range (max d 0).toNat).map (u.ints s.Initialize.heap.next) }
        m_Spacing := some { addr := s.Initialize.heap.next + 1,
                            cells := (List.range (max d 0).toNat).map
                              (u.floats (s.Initialize.heap.next + 1)) }
        m_Origin := some { addr := s.Initialize.heap.next + 2,
                           cells := (List.range (max d 0).toNat).map
                             (u.floats (s.Initialize.heap.next + 2)) }
        heap := { next := s.Initialize.heap.next + 3
                  live := (s.Initialize.heap.next + 2) :: (s.Initialize.heap.next + 1) ::
                    s.Initialize.heap.next :: s.Initialize.heap.live
                  released := s.Initialize.heap.released } } := by
  simp only [SetDimension, clamp_eq_max, ne_eq, h, not_false_eq_true, if_true]
  rfl

theorem Initialize_heap_of_Configured (s : itkImageBase) (h : Configured s) :
    s.Initialize.heap.live = [] ∧ s.Initialize.heap.next = s.heap.next := by
  rcases h with h | ⟨n, a, _, ⟨c1, h1, _⟩, ⟨c2, h2, _⟩, ⟨c3, h3, _⟩, hl, _⟩
  · subst h; exact ⟨rfl, rfl⟩
  · simp [Initialize, Heap.deleteArray, h1, h2, h3, hl]

/-- A `SetDimension` that changes the dimension always ends holding three fresh
arrays, of zero cells when the new dimension is zero. -/
theorem arraysHeld_SetDimension_of_ne (u : Uninit) (d : Int) (s : itkImageBase)
    (h : Configured s) (hd : max d 0 ≠ s.GetDimension) :
    arraysHeld (SetDimension u d s) (max d 0).toNat s.heap.next := by
  obtain ⟨hlive, hnext⟩ := Initialize_heap_of_Configured s h
  rw [SetDimension_of_ne u d s hd, hnext]
  refine ⟨⟨_, rfl, by simp⟩, ⟨_, rfl, by simp⟩, ⟨_, rfl, by simp⟩, ?_, rfl⟩
  simp [hlive]

/-- `SetDimension` keeps the shape `Configured`. -/
theorem Configured_SetDimension (u : Uninit) (d : Int) (s : itkImageBase)
    (h : Configured s) : Configured (SetDimension u d s) := by
  by_cases hd : max d 0 = s.GetDimension
  · rw [SetDimension_of_eq u d s hd]; exact h
  · right
    refine ⟨(max d 0).toNat, s.heap.next, ?_, arraysHeld_SetDimension_of_ne u d s h hd⟩
    rw [GetDimension_SetDimension]
    exact (Int.toNat_of_nonneg (le_max_right d 0)).symm

theorem Configured_configureAll (u : Uninit) :
    ∀ (calls : List Int) (s : itkImageBase), Configured s → Configured (configureAll u calls s)
  | [], _, h => h
  | d :: ds, s, h => Configured_configureAll u ds _ (Configured_SetDimension u d s h)

theorem lengths_of_Configured (s : itkImageBase) (h : Configured s) :
    (arrayLength s.m_Size : Int) = s.GetDimension ∧
    (arrayLength s.m_Spacing : Int) = s.GetDimension ∧
    (arrayLength s.m_Origin : Int) = s.GetDimension := by
  rcases h with h | ⟨n, a, hn, ⟨c1, h1, l1⟩, ⟨c2, h2, l2⟩, ⟨c3, h3, l3⟩, _, _⟩
  · subst h; exact ⟨rfl, rfl, rfl⟩
  · simp [h1, h2, h3, arrayLength, l1, l2, l3, hn]

/-- C1. Start from a newly constructed object and make any sequence of
`SetDimension` calls, with any arguments and any contents of fresh memory: after
each call (after the first `k` calls, for every `k`) the arrays behind `m_Size`,
`m_Spacing` and `m_Origin` all have `GetDimension()` cells. -/
theorem arrays_have_dimension_cells (u : Uninit) (calls : List Int) (k : Nat) :
    (arrayLength (configureAll u (calls.take k) New).m_Size : Int) =
      (configureAll u (calls.take k) New).GetDimension ∧
    (arrayLength (configureAll u (calls.take k) New).m_Spacing : Int) =
      (configureAll u (calls.take k) New).GetDimension ∧
    (arrayLength (configureAll u (calls.take k) New).m_Origin : Int) =
      (configureAll u (calls.take k) New).GetDimension :=
  lengths_of_Configured _ (Configured_configureAll u _ New (Or.inl rfl))

end itkImageBase

/-- C8 (as stated, refuted). After `SetDimension(3); SetDimension(0)` on a new
object the dimension is 0 and the three pointers are not null: each holds a live
zero-length array from `new T[0]`. -/
theorem zero_length_arrays_held_at_dimension_zero :
    (itkImageBase.configureAll Uninit.zeros [3, 0] itkImageBase.New).GetDimension = 0 ∧
    ¬ (itkImageBase.configureAll Uninit.zeros [3, 0] itkImageBase.New).arraysAbsent ∧
    (itkImageBase.configureAll Uninit.zeros [3, 0] itkImageBase.New).m_Size =
      some { addr := 4, cells := [] } ∧
    (itkImageBase.configureAll Uninit.zeros [3, 0] itkImageBase.New).m_Spacing =
      some { addr := 5, cells := [] } ∧
    (itkImageBase.configureAll Uninit.zeros [3, 0] itkImageBase.New).m_Origin =
      some { addr := 6, cells := [] } ∧
    (itkImageBase.configureAll Uninit.zeros [3, 0] itkImageBase.New).heap.live = [6, 5, 4] := by
  refine ⟨by decide, ?_, by decide, by decide, by decide, by decide⟩
  intro h
  exact absurd h.1 (by decide)

namespace itkImageBase

/-- C8 (amended). In every state reached by `SetDimension` calls from a new
object, if the dimension is 0 then either the object is still as constructed,
with three null pointers, or it holds three live arrays of zero cells. The
latter is what every dimension-changing `SetDimension` to zero leaves: it
allocates unconditionally, so `SetDimension(n); SetDimension(0)` with `n > 0`
ends holding zero-length arrays. -/
theorem dimension_zero_absent_or_zero_length (u : Uninit) (calls : List Int) (n : Int) :
    ((configureAll u calls New).GetDimension = 0 →
      (configureAll u calls New = New ∧ (configureAll u calls New).arraysAbsent) ∨
      ∃ a, arraysHeld (configureAll u calls New) 0 a) ∧
    (0 < n → (configureAll u [n, 0] New).GetDimension = 0 ∧
      arraysHeld (configureAll u [n, 0] New) 0 4) := by
  constructor
  · intro h0
    rcases Configured_configureAll u calls New (Or.inl rfl) with h | ⟨m, a, hm, ha⟩
    · left
      rw [h]
      exact ⟨rfl, rfl, rfl, rfl⟩
    · right
      have : m = 0 := by rw [h0] at hm; exact_mod_cast hm.symm
      subst this
      exact ⟨a, ha⟩
  · intro hn
    have h1 : Configured (SetDimension u n New) := Configured_SetDimension u n New (Or.inl rfl)
    have hdim : (SetDimension u n New).GetDimension = n := by
      rw [GetDimension_SetDimension]; exact max_eq_left hn.le
    have hne : max (0 : Int) 0 ≠ (SetDimension u n New).GetDimension := by
      rw [hdim]; simp; omega
    have hnext : (SetDimension u n New).heap.next = 4 := by
      rw [SetDimension_of_ne u n New (by
        rw [max_eq_left hn.le]; show n ≠ 0; omega)]
      rfl
    refine ⟨GetDimension_SetDimension u 0 _, ?_⟩
    have := arraysHeld_SetDimension_of_ne u 0 _ h1 hne
    rw [hnext] at this
    simpa [configureAll] using this

end itkImageBase

/-- The theorem of C8 at the call sequence `SetDimension(3); SetDimension(0)`. -/
theorem dimension_zero_absent_or_zero_length_witness :
    (itkImageBase.configureAll Uninit.zeros [3, 0] itkImageBase.New = itkImageBase.New ∧
      (itkImageBase.configureAll Uninit.zeros [3, 0] itkImageBase.New).arraysAbsent) ∨
    ∃ a, itkImageBase.arraysHeld
      (itkImageBase.configureAll Uninit.zeros [3, 0] itkImageBase.New) 0 a :=
  (itkImageBase.dimension_zero_absent_or_zero_length Uninit.zeros [3, 0] 3).1 (by decide)

/-! ## What a setter leaves alone -/

namespace itkImageBase

/-- A setter body never changes where the pointer points, only the cells. -/
theorem setArray_addr {α : Type} (ne : α → α → Bool) (live : List Nat) (dim : Int)
    (m : Bool) (input : List α) (arr : Option (Block α)) (r : Option (Block α) × Bool)
    (h : setArray ne live dim m input arr = some r) :
    r.1.map Block.addr = arr.map Block.addr := by
  unfold setArray at h
  split at h
  · cases h; rfl
  · cases arr with
    | none => simp at h
    | some b =>
      simp only at h
      split at h
      · simp only [Option.map_eq_some'] at h
        obtain ⟨x, _, hx⟩ := h
        rw [← hx]
        rfl
      · simp at h

theorem notifications_notifyIf_cases (m : Bool) (s : itkImageBase) :
    (notifyIf m s).notifications = s.notifications ∨
    (notifyIf m s).notifications = s.notifications + 1 := by
  cases m
  · left; rfl
  · right; rfl

/-- C10. Whenever a setter returns, everything but its own array and the
notification count is as before: `SetSize` leaves the dimension, `m_Spacing`,
`m_Origin` and the free store unchanged, `SetSpacing` the dimension, `m_Size`,
`m_Origin` and the free store, `SetOrigin` the dimension, `m_Size`, `m_Spacing`
and the free store. The setter's own pointer still points at the same address,
and at most one notification has been added. -/
theorem setter_frame (m0 : Bool) (s s' : itkImageBase) :
    (∀ size, SetSize m0 size s = some s' →
      s'.GetDimension = s.GetDimension ∧ s'.m_Spacing = s.m_Spacing ∧
      s'.m_Origin = s.m_Origin ∧ s'.heap = s.heap ∧
      s'.m_Size.map Block.addr = s.m_Size.map Block.addr ∧
      (s'.notifications = s.notifications ∨ s'.notifications = s.notifications + 1)) ∧
    (∀ spacing, SetSpacing m0 spacing s = some s' →
      s'.GetDimension = s.GetDimension ∧ s'.m_Size = s.m_Size ∧
      s'.m_Origin = s.m_Origin ∧ s'.heap = s.heap ∧
      s'.m_Spacing.map Block.addr = s.m_Spacing.map Block.addr ∧
      (s'.notifications = s.notifications ∨ s'.notifications = s.notifications + 1)) ∧
    (∀ origin, SetOrigin m0 origin s = some s' →
      s'.GetDimension = s.GetDimension ∧ s'.m_Size = s.m_Size ∧
      s'.m_Spacing = s.m_Spacing ∧ s'.heap = s.heap ∧
      s'.m_Origin.map Block.addr = s.m_Origin.map Block.addr ∧
      (s'.notifications = s.notifications ∨ s'.notifications = s.notifications + 1)) := by
  refine ⟨?_, ?_, ?_⟩
  · intro size h
    simp only [SetSize, Option.map_eq_some'] at h
    obtain ⟨r, hr, hs⟩ := h
    subst hs
    refine ⟨GetDimension_notifyIf _ _, m_Spacing_notifyIf _ _, m_Origin_notifyIf _ _,
      heap_notifyIf _ _, ?_, notifications_notifyIf_cases _ _⟩
    rw [m_Size_notifyIf]
    exact setArray_addr _ _ _ _ _ _ r hr
  · intro spacing h
    simp only [SetSpacing, Option.map_eq_some'] at h
    obtain ⟨r, hr, hs⟩ := h
    subst hs
    refine ⟨GetDimension_notifyIf _ _, m_Size_notifyIf _ _, m_Origin_notifyIf _ _,
      heap_notifyIf _ _, ?_, notifications_notifyIf_cases _ _⟩
    rw [m_Spacing_notifyIf]
    exact setArray_addr _ _ _ _ _ _ r hr
  · intro origin h
    simp only [SetOrigin, Option.map_eq_some'] at h
    obtain ⟨r, hr, hs⟩ := h
    subst hs
    refine ⟨GetDimension_notifyIf _ _, m_Size_notifyIf _ _, m_Spacing_notifyIf _ _,
      heap_notifyIf _ _, ?_, notifications_notifyIf_cases _ _⟩
    rw [m_Origin_notifyIf]
    exact setArray_addr _ _ _ _ _ _ r hr

end itkImageBase

/-- The theorem of C10 at `SetSpacing({1.0, 2.0})` on an object of dimension 2
with zeroed arrays: in the state the call returns, `m_Size` and `m_Origin` are
the arrays of before. -/
theorem setter_frame_witness :
    itkImageBase.SetSpacing false [F32.one, F32.two]
        (itkImageBase.SetDimension Uninit.zeros 2 itkImageBase.New) =
      some { base := { m_Dimension := 2, modifiedCount := 2 }
             m_Size := some { addr := 1, cells := [0, 0] }
             m_Spacing := some { addr := 2, cells := [F32.one, F32.two] }
             m_Origin := some { addr := 3, cells := [F32.zero, F32.zero] }
             heap := { next := 4, live := [3, 2, 1], released := [] } } ∧
    some { addr := 1, cells := [0, 0] } =
      (itkImageBase.SetDimension Uninit.zeros 2 itkImageBase.New).m_Size ∧
    some { addr := 3, cells := [F32.zero, F32.zero] } =
      (itkImageBase.SetDimension Uninit.zeros 2 itkImageBase.New).m_Origin :=
  ⟨by decide,
   ((itkImageBase.setter_frame false
      (itkImageBase.SetDimension Uninit.zeros 2 itkImageBase.New)
      { base := { m_Dimension := 2, modifiedCount := 2 }
        m_Size := some { addr := 1, cells := [0, 0] }
        m_Spacing := some { addr := 2, cells := [F32.one, F32.two] }
        m_Origin := some { addr := 3, cells := [F32.zero, F32.zero] }
        heap := { next := 4, live := [3, 2, 1], released := [] } }).2.1
      [F32.one, F32.two] (by decide)).2.1,
   ((itkImageBase.setter_frame false
      (itkImageBase.SetDimension Uninit.zeros 2 itkImageBase.New)
      { base := { m_Dimension := 2, modifiedCount := 2 }
        m_Size := some { addr := 1, cells := [0, 0] }
        m_Spacing := some { addr := 2, cells := [F32.one, F32.two] }
        m_Origin := some { addr := 3, cells := [F32.zero, F32.zero] }
        heap := { next := 4, live := [3, 2, 1], released := [] } }).2.1
      [F32.one, F32.two] (by decide)).2.2.1⟩

/-! ## Configure, then set -/

namespace itkImageBase

/-- The first `SetDimension(d)`, `d > 0`, on a new object: three arrays of `d`
indeterminate cells at addresses 1, 2, 3, and one notification. -/
theorem SetDimension_New (u : Uninit) (d : Nat) (hd : 0 < d) :
    SetDimension u d New =
      { base := { m_Dimension := d, modifiedCount := 1 }
        m_Size := some { addr := 1, cells := (List.range d).map (u.ints 1) }
        m_Spacing := some { addr := 2, cells := (List.range d).map (u.floats 2) }
        m_Origin := some { addr := 3, cells := (List.range d).map (u.floats 3) }
        heap := { next := 4, live := [3, 2, 1], released := [] } } := by
  have hmax : max (d : Int) 0 = d := max_eq_left (by omega)
  have hne : max (d : Int) 0 ≠ New.GetDimension := by
    rw [hmax]; show (d : Int) ≠ 0; omega
  rw [SetDimension_of_ne u d New hne, hmax]
  simp [Initialize, New, notifications, itkDataObject.New]

theorem arraysHeld_SetDimension_New (u : Uninit) (d : Nat) (hd : 0 < d) :
    (SetDimension u d New).GetDimension = d ∧ arraysHeld (SetDimension u d New) d 1 ∧
    (SetDimension u d New).notifications = 1 := by
  rw [SetDimension_New u d hd]
  exact ⟨rfl, ⟨⟨_, rfl, by simp⟩, ⟨_, rfl, by simp⟩, ⟨_, rfl, by simp⟩, rfl, rfl⟩, rfl⟩

/-- `SetSize` with `n` values on an object holding its arrays: it returns, the
arrays are still held, `m_Size` is the input, the rest is untouched, and one
notification is sent if some axis differed or the flag started set. -/
theorem SetSize_held (m0 : Bool) (size : List Int) (s : itkImageBase) (n a : Nat)
    (hdim : s.GetDimension = n) (hh : arraysHeld s n a) (hin : size.length = n) :
    ∃ s' c, SetSize m0 size s = some s' ∧ s'.GetDimension = n ∧ arraysHeld s' n a ∧
      s.m_Size = some { addr := a, cells := c } ∧
      s'.m_Size = some { addr := a, cells := size } ∧
      s'.m_Spacing = s.m_Spacing ∧ s'.m_Origin = s.m_Origin ∧
      s'.notifications = s.notifications + (if m0 || anyDiffers intNe c size then 1 else 0) := by
  obtain ⟨⟨c1, h1, l1⟩, h2, h3, hl, hn⟩ := hh
  have hc := SetSize_closed m0 size s n { addr := a, cells := c1 } hdim
    ⟨h1, by simp [hl], l1⟩ (le_of_eq hin.symm)
  rw [zipWith_assignCell_eq_input intNe intNe_separates _ size (l1.trans hin.symm)] at hc
  refine ⟨_, c1, hc, ?_, ?_, h1, ?_, ?_, ?_, ?_⟩
  · rw [GetDimension_notifyIf]; exact hdim
  · refine ⟨⟨size, ?_, hin⟩, ?_, ?_, ?_, ?_⟩
    · rw [m_Size_notifyIf]
    · rw [m_Spacing_notifyIf]; exact h2
    · rw [m_Origin_notifyIf]; exact h3
    · rw [heap_notifyIf]; exact hl
    · rw [heap_notifyIf]; exact hn
  · rw [m_Size_notifyIf]
  · rw [m_Spacing_notifyIf]
  · rw [m_Origin_notifyIf]
  · rw [notifications_notifyIf]; rfl

/-- `SetSpacing` with `n` values on an object holding its arrays. -/
theorem SetSpacing_held (m0 : Bool) (spacing : List F32) (s : itkImageBase) (n a : Nat)
    (hdim : s.GetDimension = n) (hh : arraysHeld s n a) (hin : spacing.length = n) :
    ∃ s' c, SetSpacing m0 spacing s = some s' ∧ s'.GetDimension = n ∧ arraysHeld s' n a ∧
      s.m_Spacing = some { addr := a + 1, cells := c } ∧
      s'.m_Spacing =
        some { addr := a + 1, cells := List.zipWith (assignCell F32.ne) c spacing } ∧
      List.Forall₂ F32.sameValue (List.zipWith (assignCell F32.ne) c spacing) spacing ∧
      s'.m_Size = s.m_Size ∧ s'.m_Origin = s.m_Origin ∧
      s'.notifications =
        s.notifications + (if m0 || anyDiffers F32.ne c spacing then 1 else 0) := by
  obtain ⟨h1, ⟨c2, h2, l2⟩, h3, hl, hn⟩ := hh
  have hc := SetSpacing_closed m0 spacing s n { addr := a + 1, cells := c2 } hdim
    ⟨h2, by simp [hl], l2⟩ (le_of_eq hin.symm)
  have hlen := zipWith_assignCell_length F32.ne c2 spacing (by omega)
  refine ⟨_, c2, hc, ?_, ?_, h2, ?_,
    zipWith_assignCell_sameValue c2 spacing (l2.trans hin.symm), ?_, ?_, ?_⟩
  · rw [GetDimension_notifyIf]; exact hdim
  · refine ⟨?_, ⟨_, ?_, hlen.trans l2⟩, ?_, ?_, ?_⟩
    · rw [m_Size_notifyIf]; exact h1
    · rw [m_Spacing_notifyIf]
    · rw [m_Origin_notifyIf]; exact h3
    · rw [heap_notifyIf]; exact hl
    · rw [heap_notifyIf]; exact hn
  · rw [m_Spacing_notifyIf]
  · rw [m_Size_notifyIf]
  · rw [m_Origin_notifyIf]
  · rw [notifications_notifyIf]; rfl

/-- `SetOrigin` with `n` values on an object holding its arrays. -/
theorem SetOrigin_held (m0 : Bool) (origin : List F32) (s : itkImageBase) (n a : Nat)
    (hdim : s.GetDimension = n) (hh : arraysHeld s n a) (hin : origin.length = n) :
    ∃ s' c, SetOrigin m0 origin s = some s' ∧ s'.GetDimension = n ∧ arraysHeld s' n a ∧
      s.m_Origin = some { addr := a + 2, cells := c } ∧
      s'.m_Origin =
        some { addr := a + 2, cells := List.zipWith (assignCell F32.ne) c origin } ∧
      List.Forall₂ F32.sameValue (List.zipWith (assignCell F32.ne) c origin) origin ∧
      s'.m_Size = s.m_Size ∧ s'.m_Spacing = s.m_Spacing ∧
      s'.notifications =
        s.notifications + (if m0 || anyDiffers F32.ne c origin then 1 else 0) := by
  obtain ⟨h1, h2, ⟨c3, h3, l3⟩, hl, hn⟩ := hh
  have hc := SetOrigin_closed m0 origin s n { addr := a + 2, cells := c3 } hdim
    ⟨h3, by simp [hl], l3⟩ (le_of_eq hin.symm)
  have hlen := zipWith_assignCell_length F32.ne c3 origin (by omega)
  refine ⟨_, c3, hc, ?_, ?_, h3, ?_,
    zipWith_assignCell_sameValue c3 origin (l3.trans hin.symm), ?_, ?_, ?_⟩
  · rw [GetDimension_notifyIf]; exact hdim
  · refine ⟨?_, ?_, ⟨_, ?_, hlen.trans l3⟩, ?_, ?_⟩
    · rw [m_Size_notifyIf]; exact h1
    · rw [m_Spacing_notifyIf]; exact h2
    · rw [m_Origin_notifyIf]
    · rw [heap_notifyIf]; exact hl
    · rw [heap_notifyIf]; exact hn
  · rw [m_Origin_notifyIf]
  · rw [m_Size_notifyIf]
  · rw [m_Spacing_notifyIf]
  · rw [notifications_notifyIf]; rfl

/-- Cells that hold the same float values as an input without zeros are the
input, bit for bit. -/
theorem eq_of_sameValue_of_no_zero :
    ∀ (cs vs : List F32), List.Forall₂ F32.sameValue cs vs →
      (∀ v ∈ vs, v.isZero = false) → cs = vs
  | [], [], _, _ => rfl
  | [], _ :: _, h, _ => by cases h
  | _ :: _, [], h, _ => by cases h
  | c :: cs, v :: vs, h, hz => by
    rw [List.forall₂_cons] at h
    have ih := eq_of_sameValue_of_no_zero cs vs h.2 (fun w hw => hz w (List.mem_cons_of_mem _ hw))
    have hv : v.isZero = false := hz v (List.mem_cons_self _ _)
    rcases h.1 with hcv | ⟨_, hzv⟩
    · rw [hcv, ih]
    · rw [hv] at hzv; cases hzv

/-- C7 (amended). On a new object, `SetDimension(d)` with `d > 0` followed by
`SetSize(e)`, `SetSpacing(sp)` and `SetOrigin(o)`, each with `d` values, returns,
whatever the fresh arrays and the three local flags held; afterwards the
dimension is `d` and `m_Size` holds exactly `e`. `m_Spacing` and `m_Origin` hold,
axis by axis, the input where it differed under `!=` from the fresh cell and the
fresh cell elsewhere. So every axis has the float value of the input (the same
bits, or both are zeros), and the arrays are exactly `sp` and `o` when these
contain no zero; where the input is a zero and the fresh cell is a zero of the
other sign, the fresh cell stays. -/
theorem configure_then_set_round_trip (u : Uninit) (d : Nat) (e : List Int)
    (sp o : List F32) (m1 m2 m3 : Bool) (hd : 0 < d) (he : e.length = d)
    (hsp : sp.length = d) (ho : o.length = d) :
    ∃ s',
      ((SetSize m1 e (SetDimension u d New)).bind (SetSpacing m2 sp)).bind (SetOrigin m3 o) =
        some s' ∧
      s'.GetDimension = d ∧
      s'.m_Size = some { addr := 1, cells := e } ∧
      s'.m_Spacing = some { addr := 2, cells := (List.zipWith (assignCell F32.ne)
        ((List.range d).map (u.floats 2)) sp) } ∧
      s'.m_Origin = some { addr := 3, cells := (List.zipWith (assignCell F32.ne)
        ((List.range d).map (u.floats 3)) o) } ∧
      List.Forall₂ F32.sameValue
        (List.zipWith (assignCell F32.ne) ((List.range d).map (u.floats 2)) sp) sp ∧
      List.Forall₂ F32.sameValue
        (List.zipWith (assignCell F32.ne) ((List.range d).map (u.floats 3)) o) o ∧
      ((∀ v ∈ sp, v.isZero = false) → s'.m_Spacing = some { addr := 2, cells := sp }) ∧
      ((∀ v ∈ o, v.isZero = false) → s'.m_Origin = some { addr := 3, cells := o }) := by
  obtain ⟨hdim, hheld, _⟩ := arraysHeld_SetDimension_New u d hd
  obtain ⟨s1, _, e1, d1, held1, _, size1, keep1sp, keep1o, _⟩ :=
    SetSize_held m1 e _ d 1 hdim hheld he
  obtain ⟨s2, c2, e2, d2, held2, old2, sp2, same2, size2, keep2o, _⟩ :=
    SetSpacing_held m2 sp s1 d 1 d1 held1 hsp
  obtain ⟨s3, c3, e3, d3, _, old3, o3, same3, size3, sp3, _⟩ :=
    SetOrigin_held m3 o s2 d 1 d2 held2 ho
  have hc2 : c2 = (List.range d).map (u.floats 2) := by
    rw [keep1sp, SetDimension_New u d hd] at old2
    simp only [Option.some.injEq, Block.mk.injEq, true_and] at old2
    exact old2.symm
  have hc3 : c3 = (List.range d).map (u.floats 3) := by
    rw [keep2o, keep1o, SetDimension_New u d hd] at old3
    simp only [Option.some.injEq, Block.mk.injEq, true_and] at old3
    exact old3.symm
  rw [hc2] at sp2 same2
  rw [hc3] at o3 same3
  have hsp3 : s3.m_Spacing = some { addr := 2, cells := (List.zipWith (assignCell F32.ne)
      ((List.range d).map (u.floats 2)) sp) } := by
    rw [sp3, sp2]
  refine ⟨s3, ?_, d3, ?_, hsp3, o3, same2, same3, ?_, ?_⟩
  · rw [e1, Option.some_bind, e2, Option.some_bind, e3]
  · rw [size3, size2, size1]
  · intro hz
    rw [hsp3, eq_of_sameValue_of_no_zero _ sp same2 hz]
  · intro hz
    rw [o3, eq_of_sameValue_of_no_zero _ o same3 hz]

end itkImageBase

/-- C7 (as stated, refuted). `SetDimension(3); SetSize({10, 20, 30});
SetSpacing({1.0, 1.0, 2.0}); SetOrigin({0.0, 0.0, 0.0})` on fresh memory whose
floats are `-0.0f`: `-0.0f != 0.0f` is false, so `SetOrigin` writes nothing and
the origin read back is `{-0.0, -0.0, -0.0}`, which is not the `{0.0, 0.0, 0.0}`
that was set. -/
theorem round_trip_keeps_fresh_negative_zero :
    (((itkImageBase.SetSize false [10, 20, 30]
          (itkImageBase.SetDimension (Uninit.const 7 F32.negZero) 3 itkImageBase.New)).bind
        (itkImageBase.SetSpacing false [F32.one, F32.one, F32.two])).bind
        (itkImageBase.SetOrigin false [F32.zero, F32.zero, F32.zero])).map
      (fun s' => s'.m_Origin) =
      some (some { addr := 3, cells := [F32.negZero, F32.negZero, F32.negZero] }) ∧
    [F32.negZero, F32.negZero, F32.negZero] ≠ [F32.zero, F32.zero, F32.zero] := by
  decide

/-- The theorem of C7 at `SetDimension(3); SetSize({10, 20, 30});
SetSpacing({1.0, 1.0, 2.0}); SetOrigin({0.0, 0.0, 0.0})`, on fresh memory whose
ints are 7 and whose floats are `-0.0f`: the size and the spacing (which has no
zero) are exactly what was set. -/
theorem configure_then_set_round_trip_witness :
    ∃ s',
      ((itkImageBase.SetSize false [10, 20, 30]
          (itkImageBase.SetDimension (Uninit.const 7 F32.negZero) ((3 : Nat) : Int)
            itkImageBase.New)).bind
        (itkImageBase.SetSpacing false [F32.one, F32.one, F32.two])).bind
        (itkImageBase.SetOrigin false [F32.zero, F32.zero, F32.zero]) = some s' ∧
      s'.m_Size = some { addr := 1, cells := [10, 20, 30] } ∧
      s'.m_Spacing = some { addr := 2, cells := [F32.one, F32.one, F32.two] } :=
  (itkImageBase.configure_then_set_round_trip (Uninit.const 7 F32.negZero) 3 [10, 20, 30]
    [F32.one, F32.one, F32.two] [F32.zero, F32.zero, F32.zero] false false false
    (by decide) rfl rfl rfl).elim
    (fun s' h => ⟨s', h.1, h.2.2.1, h.2.2.2.2.2.2.2.1 (by decide)⟩)

/-- C9 (as stated, refuted). `SetDimension(2); SetSpacing({1.0, 1.0});
SetDimension(2)` on a new object whose fresh arrays are zeroed, the local flag
starting clear: the spacing ends as `{1.0, 1.0}`, and two notifications have been
sent, one by the first `SetDimension` and one by `SetSpacing`. -/
theorem spacing_scenario_notifies_twice :
    ((itkImageBase.SetSpacing false [F32.one, F32.one]
        (itkImageBase.SetDimension Uninit.zeros 2 itkImageBase.New)).map
      (itkImageBase.SetDimension Uninit.zeros 2)).map
        (fun s' => (s'.m_Spacing, s'.notifications)) =
      some (some { addr := 2, cells := [F32.one, F32.one] }, 2) := by
  decide

namespace itkImageBase

/-- C9 (amended). On a new object, `SetDimension(d)` with `d > 0`, then
`SetSpacing(sp)` with `d` values, then `SetDimension(d)` again: the calls return,
the last one changes nothing, and the spacing holds on every axis the same float
value as `sp`. The first `SetDimension` sends one notification and `SetSpacing`
at most one more, so the total is one or two; it is two whenever some axis of
the fresh spacing array differs from `sp`. -/
theorem configure_set_configure (u u' : Uninit) (d : Nat) (sp : List F32) (m0 : Bool)
    (hd : 0 < d) (hsp : sp.length = d) :
    ∃ s1 cs, SetSpacing m0 sp (SetDimension u d New) = some s1 ∧
      SetDimension u' d s1 = s1 ∧
      s1.m_Spacing = some { addr := 2, cells := cs } ∧ List.Forall₂ F32.sameValue cs sp ∧
      1 ≤ s1.notifications ∧ s1.notifications ≤ 2 ∧
      (anyDiffers F32.ne ((List.range d).map (u.floats 2)) sp = true →
        s1.notifications = 2) := by
  obtain ⟨hdim, hheld, hnot⟩ := arraysHeld_SetDimension_New u d hd
  obtain ⟨s1, c, e1, d1, _, hc, sp1, same1, _, _, n1⟩ :=
    SetSpacing_held m0 sp _ d 1 hdim hheld hsp
  have hcells : c = (List.range d).map (u.floats 2) := by
    rw [SetDimension_New u d hd] at hc
    simp only [Option.some.injEq, Block.mk.injEq, true_and] at hc
    exact hc.symm
  rw [hnot] at n1
  refine ⟨s1, _, e1, ?_, sp1, same1, ?_, ?_, ?_⟩
  · exact SetDimension_of_eq u' d s1 (by rw [d1]; exact max_eq_left (by omega))
  · rw [n1]; omega
  · rw [n1]; split <;> omega
  · intro hdiff
    rw [n1, hcells, hdiff, Bool.or_true]
    rfl

end itkImageBase

/-- The theorem of C9 at `d = 2`, `sp = {1.0, 1.0}` on zeroed fresh memory. -/
theorem configure_set_configure_witness :
    ∃ s1 cs, itkImageBase.SetSpacing false [F32.one, F32.one]
        (itkImageBase.SetDimension Uninit.zeros ((2 : Nat) : Int) itkImageBase.New) = some s1 ∧
      itkImageBase.SetDimension Uninit.zeros ((2 : Nat) : Int) s1 = s1 ∧
      s1.m_Spacing = some { addr := 2, cells := cs } ∧
      List.Forall₂ F32.sameValue cs [F32.one, F32.one] ∧
      1 ≤ s1.notifications ∧ s1.notifications ≤ 2 ∧
      (anyDiffers F32.ne ((List.range 2).map (Uninit.zeros.floats 2)) [F32.one, F32.one] = true →
        s1.notifications = 2) :=
  itkImageBase.configure_set_configure Uninit.zeros Uninit.zeros 2 [F32.one, F32.one] false
    (by decide) rfl

/-! ## Setters at dimension zero -/

/-- C11 (the code departs from it). On a new object `SetDimension(0)` changes
nothing: no array is allocated and no notification sent. The following
`SetSize` with an empty input runs its loop zero times, never assigns
`modified`, and reads it uninitialised: when the flag happens to start non-zero
the call sends a notification, although it changed nothing. -/
theorem SetSize_empty_at_dimension_zero_notifies :
    itkImageBase.SetDimension Uninit.zeros 0 itkImageBase.New = itkImageBase.New ∧
    itkImageBase.New.arraysAbsent ∧ itkImageBase.New.notifications = 0 ∧
    (itkImageBase.SetSize true []
        (itkImageBase.SetDimension Uninit.zeros 0 itkImageBase.New)).map
      (fun s' => (s'.m_Size, s'.m_Spacing, s'.m_Origin, s'.notifications)) =
      some (none, none, none, 1) := by
  refine ⟨by decide, ⟨rfl, rfl, rfl⟩, rfl, by decide⟩

/-- C13 (as stated, refuted). On a new object (dimension 0, no arrays) the three
setters do not fail: each returns, here with the object unchanged. -/
theorem setters_succeed_at_dimension_zero :
    itkImageBase.New.GetDimension = 0 ∧
    itkImageBase.SetSize false [] itkImageBase.New = some itkImageBase.New ∧
    itkImageBase.SetSpacing false [] itkImageBase.New = some itkImageBase.New ∧
    itkImageBase.SetOrigin false [] itkImageBase.New = some itkImageBase.New := by
  decide

namespace itkImageBase

/-- C13 (amended). A setter called while the dimension is 0 does not fail: its
loop does not iterate, so it returns without reading or writing any array. The
three pointers and their cells, the dimension and the free store are as before,
whatever the input and whether the arrays are absent or zero-length. -/
theorem setter_at_dimension_zero_returns (s : itkImageBase) (m0 : Bool)
    (h0 : s.GetDimension = 0) :
    (∀ size, ∃ s', SetSize m0 size s = some s' ∧ s'.GetDimension = 0 ∧
      s'.m_Size = s.m_Size ∧ s'.m_Spacing = s.m_Spacing ∧ s'.m_Origin = s.m_Origin ∧
      s'.heap = s.heap) ∧
    (∀ spacing, ∃ s', SetSpacing m0 spacing s = some s' ∧ s'.GetDimension = 0 ∧
      s'.m_Size = s.m_Size ∧ s'.m_Spacing = s.m_Spacing ∧ s'.m_Origin = s.m_Origin ∧
      s'.heap = s.heap) ∧
    (∀ origin, ∃ s', SetOrigin m0 origin s = some s' ∧ s'.GetDimension = 0 ∧
      s'.m_Size = s.m_Size ∧ s'.m_Spacing = s.m_Spacing ∧ s'.m_Origin = s.m_Origin ∧
      s'.heap = s.heap) := by
  have hz : s.GetDimension.toNat = 0 := by rw [h0]; rfl
  refine ⟨fun size => ?_, fun spacing => ?_, fun origin => ?_⟩
  · refine ⟨notifyIf m0 s, ?_, ?_, m_Size_notifyIf _ _, m_Spacing_notifyIf _ _,
      m_Origin_notifyIf _ _, heap_notifyIf _ _⟩
    · simp [SetSize, setArray_of_no_axis _ _ _ _ _ _ hz]
    · rw [GetDimension_notifyIf]; exact h0
  · refine ⟨notifyIf m0 s, ?_, ?_, m_Size_notifyIf _ _, m_Spacing_notifyIf _ _,
      m_Origin_notifyIf _ _, heap_notifyIf _ _⟩
    · simp [SetSpacing, setArray_of_no_axis _ _ _ _ _ _ hz]
    · rw [GetDimension_notifyIf]; exact h0
  · refine ⟨notifyIf m0 s, ?_, ?_, m_Size_notifyIf _ _, m_Spacing_notifyIf _ _,
      m_Origin_notifyIf _ _, heap_notifyIf _ _⟩
    · simp [SetOrigin, setArray_of_no_axis _ _ _ _ _ _ hz]
    · rw [GetDimension_notifyIf]; exact h0

end itkImageBase

/-- The theorem of C13 at `SetOrigin({1.0})` after `SetDimension(3);
SetDimension(0)`, where three zero-length arrays are held. -/
theorem setter_at_dimension_zero_returns_witness :
    ∃ s', itkImageBase.SetOrigin true [F32.one]
        (itkImageBase.configureAll Uninit.zeros [3, 0] itkImageBase.New) = some s' ∧
      s'.GetDimension = 0 ∧
      s'.m_Size = (itkImageBase.configureAll Uninit.zeros [3, 0] itkImageBase.New).m_Size ∧
      s'.m_Spacing = (itkImageBase.configureAll Uninit.zeros [3, 0] itkImageBase.New).m_Spacing ∧
      s'.m_Origin = (itkImageBase.configureAll Uninit.zeros [3, 0] itkImageBase.New).m_Origin ∧
      s'.heap = (itkImageBase.configureAll Uninit.zeros [3, 0] itkImageBase.New).heap :=
  (itkImageBase.setter_at_dimension_zero_returns
    (itkImageBase.configureAll Uninit.zeros [3, 0] itkImageBase.New) true
    (by decide)).2.2 [F32.one]

/-! ## Inputs whose length is not the dimension -/

namespace itkImageBase

/-- The loop reads the input only at the indices it visits. -/
theorem setLoop_congr {α : Type} (ne : α → α → Bool) (in1 in2 : List α) :
    ∀ (k i : Nat) (cells : List α) (m : Bool), (∀ j, j < i + k → in1[j]? = in2[j]?) →
      setLoop ne in1 k i cells m = setLoop ne in2 k i cells m
  | 0, _, _, _, _ => rfl
  | k + 1, i, cells, m, h => by
    have hi : in1[i]? = in2[i]? := h i (by omega)
    simp only [setLoop, hi]
    cases hc : cells[i]? with
    | none => rfl
    | some c =>
      cases hv : in2[i]? with
      | none => rfl
      | some v =>
        simp only
        rw [setLoop_congr ne in1 in2 k (i + 1) (cells.set i v) true (fun j hj => h j (by omega)),
          setLoop_congr ne in1 in2 k (i + 1) cells m (fun j hj => h j (by omega))]

theorem getElem?_eq_of_take_eq {α : Type} (in1 in2 : List α) (n : Nat)
    (h : in1.take n = in2.take n) (j : Nat) (hj : j < n) : in1[j]? = in2[j]? := by
  rw [← List.getElem?_take_of_lt hj, h, List.getElem?_take_of_lt hj]

/-- A setter body gives the same result on inputs with the same first `dim`
entries, in every state. -/
theorem setArray_congr {α : Type} (ne : α → α → Bool) (live : List Nat) (dim : Int)
    (m : Bool) (in1 in2 : List α) (arr : Option (Block α))
    (h : in1.take dim.toNat = in2.take dim.toNat) :
    setArray ne live dim m in1 arr = setArray ne live dim m in2 arr := by
  have hl : ∀ cells, setLoop ne in1 dim.toNat 0 cells m = setLoop ne in2 dim.toNat 0 cells m :=
    fun cells => setLoop_congr ne in1 in2 dim.toNat 0 cells m (fun j hj =>
      getElem?_eq_of_take_eq in1 in2 dim.toNat h j (by omega))
  cases arr with
  | none => rfl
  | some b => simp only [setArray, hl]

/-- The loop runs off the end of an input that is too short: undefined
behaviour, whatever it has written before. -/
theorem setLoop_short {α : Type} (ne : α → α → Bool) (input : List α) :
    ∀ (rest pre : List α) (m : Bool), pre.length ≤ input.length →
      input.length < pre.length + rest.length →
      setLoop ne input rest.length pre.length (pre ++ rest) m = none := by
  intro rest
  induction rest with
  | nil => intro pre m h1 h2; simp at h2; omega
  | cons c rest ih =>
    intro pre m h1 h2
    simp only [List.length_cons, setLoop, getElem?_append_length]
    by_cases hlt : pre.length < input.length
    · have hin : input[pre.length]? = some input[pre.length] := List.getElem?_eq_getElem hlt
      have hlen1 : (pre ++ [input[pre.length]]).length = pre.length + 1 := by simp
      have hlen2 : (pre ++ [c]).length = pre.length + 1 := by simp
      have hshort : input.length < pre.length + 1 + rest.length := by
        simp only [List.length_cons] at h2; omega
      have a1 := ih (pre ++ [input[pre.length]]) true (by rw [hlen1]; omega)
        (by rw [hlen1]; exact hshort)
      have a2 := ih (pre ++ [c]) m (by rw [hlen2]; omega) (by rw [hlen2]; exact hshort)
      rw [hlen1] at a1
      rw [hlen2] at a2
      simp only [List.append_assoc, List.singleton_append] at a1 a2
      simp only [hin, set_append_length]
      split
      · exact a1
      · exact a2
    · have hnone : input[pre.length]? = none := List.getElem?_eq_none (by omega)
      simp [hnone]

/-- A setter body on a live block of `dim` cells with fewer than `dim` input
values has no defined result. -/
theorem setArray_short {α : Type} (ne : α → α → Bool) (live : List Nat) (dim : Int)
    (m : Bool) (input : List α) (b : Block α) (hlen : b.cells.length = dim.toNat)
    (hin : input.length < dim.toNat) :
    setArray ne live dim m input (some b) = none := by
  have h := setLoop_short ne input b.cells [] m (Nat.zero_le _) (by simpa [hlen] using hin)
  simp only [List.length_nil, List.nil_append, hlen] at h
  have h0 : dim.toNat ≠ 0 := by omega
  simp only [setArray, h0, if_false]
  split
  · rw [h]; rfl
  · rfl

end itkImageBase

namespace itkImageBase

theorem SetSize_congr (m0 : Bool) (in1 in2 : List Int) (s : itkImageBase)
    (h : in1.take s.GetDimension.toNat = in2.take s.GetDimension.toNat) :
    SetSize m0 in1 s = SetSize m0 in2 s := by
  simp only [SetSize, setArray_congr intNe _ _ m0 in1 in2 _ h]

theorem SetSpacing_congr (m0 : Bool) (in1 in2 : List F32) (s : itkImageBase)
    (h : in1.take s.GetDimension.toNat = in2.take s.GetDimension.toNat) :
    SetSpacing m0 in1 s = SetSpacing m0 in2 s := by
  simp only [SetSpacing, setArray_congr F32.ne _ _ m0 in1 in2 _ h]

theorem SetOrigin_congr (m0 : Bool) (in1 in2 : List F32) (s : itkImageBase)
    (h : in1.take s.GetDimension.toNat = in2.take s.GetDimension.toNat) :
    SetOrigin m0 in1 s = SetOrigin m0 in2 s := by
  simp only [SetOrigin, setArray_congr F32.ne _ _ m0 in1 in2 _ h]

/-- C12 (amended). No setter checks the length of its input. On a usable array
of `n` cells a call with at least `n` values returns and uses the first `n` of
them, ignoring the rest: `SetSize` leaves exactly these `n` values; `SetSpacing`
and `SetOrigin` leave, axis by axis, the input where it differed under `!=` from
the stored cell and the stored cell elsewhere, so that every axis has the float
value of the input. A call with fewer than `n` values reads past the end of its
input, which is undefined behaviour and has no defined result. At dimension 0
every input is accepted, in every state and for either start value of the local
flag: the call returns and the three arrays, the dimension and the free store
are as before. -/
theorem setter_input_length_unchecked (s : itkImageBase) (n : Nat) (m0 : Bool)
    (hdim : s.GetDimension = n) :
    (∀ (b : Block Int) (size : List Int), holds s.heap.live n s.m_Size b →
      (n ≤ size.length → ∃ s', SetSize m0 size s = some s' ∧
        s'.m_Size = some { b with cells := size.take n }) ∧
      (size.length < n → SetSize m0 size s = none)) ∧
    (∀ (b : Block F32) (spacing : List F32), holds s.heap.live n s.m_Spacing b →
      (n ≤ spacing.length → ∃ s', SetSpacing m0 spacing s = some s' ∧
        s'.m_Spacing = some { b with
          cells := List.zipWith (assignCell F32.ne) b.cells (spacing.take n) } ∧
        List.Forall₂ F32.sameValue
          (List.zipWith (assignCell F32.ne) b.cells (spacing.take n)) (spacing.take n)) ∧
      (spacing.length < n → SetSpacing m0 spacing s = none)) ∧
    (∀ (b : Block F32) (origin : List F32), holds s.heap.live n s.m_Origin b →
      (n ≤ origin.length → ∃ s', SetOrigin m0 origin s = some s' ∧
        s'.m_Origin = some { b with
          cells := List.zipWith (assignCell F32.ne) b.cells (origin.take n) } ∧
        List.Forall₂ F32.sameValue
          (List.zipWith (assignCell F32.ne) b.cells (origin.take n)) (origin.take n)) ∧
      (origin.length < n → SetOrigin m0 origin s = none)) ∧
    (n = 0 →
      (∀ size, ∃ s', SetSize m0 size s = some s' ∧ s'.GetDimension = 0 ∧
        s'.m_Size = s.m_Size ∧ s'.m_Spacing = s.m_Spacing ∧ s'.m_Origin = s.m_Origin ∧
        s'.heap = s.heap) ∧
      (∀ spacing, ∃ s', SetSpacing m0 spacing s = some s' ∧ s'.GetDimension = 0 ∧
        s'.m_Size = s.m_Size ∧ s'.m_Spacing = s.m_Spacing ∧ s'.m_Origin = s.m_Origin ∧
        s'.heap = s.heap) ∧
      (∀ origin, ∃ s', SetOrigin m0 origin s = some s' ∧ s'.GetDimension = 0 ∧
        s'.m_Size = s.m_Size ∧ s'.m_Spacing = s.m_Spacing ∧ s'.m_Origin = s.m_Origin ∧
        s'.heap = s.heap)) := by
  have hn : s.GetDimension.toNat = n := by rw [hdim]; rfl
  refine ⟨fun b size hb => ⟨fun hle => ?_, fun hlt => ?_⟩,
    fun b spacing hb => ⟨fun hle => ?_, fun hlt => ?_⟩,
    fun b origin hb => ⟨fun hle => ?_, fun hlt => ?_⟩, fun h0 => ?_⟩
  · have ht : (size.take n).length = n := by simp [hle]
    have hc := SetSize_closed m0 (size.take n) s n b hdim hb (le_of_eq ht.symm)
    rw [← SetSize_congr m0 size (size.take n) s (by rw [hn]; simp)] at hc
    refine ⟨_, hc, ?_⟩
    · rw [m_Size_notifyIf, zipWith_assignCell_eq_input intNe intNe_separates b.cells
        (size.take n) (hb.2.2.trans ht.symm)]
  · obtain ⟨hp, _, hlen⟩ := hb
    simp only [SetSize, hp]
    rw [setArray_short intNe _ _ m0 size b (by rw [hn]; exact hlen) (by rw [hn]; exact hlt)]
    rfl
  · have ht : (spacing.take n).length = n := by simp [hle]
    have hc := SetSpacing_closed m0 (spacing.take n) s n b hdim hb (le_of_eq ht.symm)
    rw [← SetSpacing_congr m0 spacing (spacing.take n) s (by rw [hn]; simp)] at hc
    refine ⟨_, hc, ?_, ?_⟩
    · rw [m_Spacing_notifyIf]
    · exact zipWith_assignCell_sameValue b.cells (spacing.take n) (hb.2.2.trans ht.symm)
  · obtain ⟨hp, _, hlen⟩ := hb
    simp only [SetSpacing, hp]
    rw [setArray_short F32.ne _ _ m0 spacing b (by rw [hn]; exact hlen) (by rw [hn]; exact hlt)]
    rfl
  · have ht : (origin.take n).length = n := by simp [hle]
    have hc := SetOrigin_closed m0 (origin.take n) s n b hdim hb (le_of_eq ht.symm)
    rw [← SetOrigin_congr m0 origin (origin.take n) s (by rw [hn]; simp)] at hc
    refine ⟨_, hc, ?_, ?_⟩
    · rw [m_Origin_notifyIf]
    · exact zipWith_assignCell_sameValue b.cells (origin.take n) (hb.2.2.trans ht.symm)
  · obtain ⟨hp, _, hlen⟩ := hb
    simp only [SetOrigin, hp]
    rw [setArray_short F32.ne _ _ m0 origin b (by rw [hn]; exact hlen) (by rw [hn]; exact hlt)]
    rfl
  · have hz : s.GetDimension.toNat = 0 := by rw [hn]; exact h0
    have hd0 : s.GetDimension = 0 := by rw [hdim, h0]; rfl
    refine ⟨fun size => ?_, fun spacing => ?_, fun origin => ?_⟩
    · refine ⟨notifyIf m0 s, ?_, ?_, m_Size_notifyIf _ _, m_Spacing_notifyIf _ _,
        m_Origin_notifyIf _ _, heap_notifyIf _ _⟩
      · simp [SetSize, setArray_of_no_axis _ _ _ _ _ _ hz]
      · rw [GetDimension_notifyIf]; exact hd0
    · refine ⟨notifyIf m0 s, ?_, ?_, m_Size_notifyIf _ _, m_Spacing_notifyIf _ _,
        m_Origin_notifyIf _ _, heap_notifyIf _ _⟩
      · simp [SetSpacing, setArray_of_no_axis _ _ _ _ _ _ hz]
      · rw [GetDimension_notifyIf]; exact hd0
    · refine ⟨notifyIf m0 s, ?_, ?_, m_Size_notifyIf _ _, m_Spacing_notifyIf _ _,
        m_Origin_notifyIf _ _, heap_notifyIf _ _⟩
      · simp [SetOrigin, setArray_of_no_axis _ _ _ _ _ _ hz]
      · rw [GetDimension_notifyIf]; exact hd0

end itkImageBase

/-- C12 (as stated, refuted). At dimension 0 `SetSize({5})` does not fail: it
returns the object unchanged. At dimension 2 `SetSize({5, 6, 7})` does not fail
either: it stores `{5, 6}` and sends a notification. -/
theorem SetSize_accepts_longer_input :
    itkImageBase.New.GetDimension = 0 ∧
    itkImageBase.SetSize false [5] itkImageBase.New = some itkImageBase.New ∧
    (itkImageBase.SetDimension Uninit.zeros 2 itkImageBase.New).GetDimension = 2 ∧
    (itkImageBase.SetSize false [5, 6, 7]
        (itkImageBase.SetDimension Uninit.zeros 2 itkImageBase.New)).map
      (fun s' => (s'.m_Size, s'.notifications)) =
      some (some { addr := 1, cells := [5, 6] }, 2) := by
  decide

/-- The theorem of C12 at dimension 2 with the input `{5, 6, 7}`, and on a new
object (dimension 0) with the input `{5}` and the local flag starting set. -/
theorem setter_input_length_unchecked_witness :
    (∃ s', itkImageBase.SetSize false [5, 6, 7]
        (itkImageBase.SetDimension Uninit.zeros 2 itkImageBase.New) = some s' ∧
      s'.m_Size = some { addr := 1, cells := [5, 6] }) ∧
    (∃ s', itkImageBase.SetSize true [5] itkImageBase.New = some s' ∧
      s'.GetDimension = 0 ∧ s'.m_Size = none ∧ s'.m_Spacing = none ∧ s'.m_Origin = none ∧
      s'.heap = itkImageBase.New.heap) :=
  ⟨((itkImageBase.setter_input_length_unchecked
      (itkImageBase.SetDimension Uninit.zeros 2 itkImageBase.New) 2 false (by decide)).1
      { addr := 1, cells := [0, 0] } [5, 6, 7] (by decide)).1 (by decide),
   ((itkImageBase.setter_input_length_unchecked itkImageBase.New 0 true
      (by decide)).2.2.2 rfl).1 [5]⟩

/-! ## Calling a setter twice -/

/-- Storing the same input a second time leaves the cells of the first time,
for any test `ne`. -/
theorem zipWith_assignCell_idem {α : Type} (ne : α → α → Bool) :
    ∀ (cells input : List α),
      List.zipWith (assignCell ne) (List.zipWith (assignCell ne) cells input) input =
        List.zipWith (assignCell ne) cells input
  | [], _ => by simp
  | _ :: _, [] => by simp
  | c :: cells, v :: input => by
    have ih := zipWith_assignCell_idem ne cells input
    simp only [List.zipWith_cons_cons, ih, List.cons.injEq, and_true]
    by_cases h : ne c v = true
    · simp [assignCell, h]
    · simp [assignCell, h]

/-- When `ne` never tells a value from itself, no axis differs from the input
once the input has been stored. -/
theorem anyDiffers_after_assign {α : Type} (ne : α → α → Bool) (hirr : ∀ x, ne x x = false) :
    ∀ (cells input : List α),
      anyDiffers ne (List.zipWith (assignCell ne) cells input) input = false
  | [], _ => by simp [anyDiffers]
  | _ :: _, [] => by simp [anyDiffers]
  | c :: cells, v :: input => by
    have ih := anyDiffers_after_assign ne hirr cells input
    simp only [anyDiffers] at ih
    simp only [anyDiffers, List.zipWith_cons_cons, List.any_cons, id, ih, Bool.or_false]
    by_cases h : ne c v = true
    · simp [assignCell, h, hirr]
    · simp [assignCell, h]

/-- C15 (the code departs from it). `SetSize({5})` twice on an object of
dimension 1 with a zeroed array: the first call stores 5 and notifies. In the
second call no axis differs, `modified` is never assigned, and when the
uninitialised flag happens to start non-zero a notification is sent again; the
array is the same after both calls. -/
theorem SetSize_twice_notifies_again :
    (itkImageBase.SetSize false [5]
        (itkImageBase.SetDimension Uninit.zeros 1 itkImageBase.New)).map
      (fun s' => (s'.m_Size, s'.notifications)) =
      some (some { addr := 1, cells := [5] }, 2) ∧
    ((itkImageBase.SetSize false [5]
        (itkImageBase.SetDimension Uninit.zeros 1 itkImageBase.New)).bind
      (itkImageBase.SetSize true [5])).map
      (fun s' => (s'.m_Size, s'.notifications)) =
      some (some { addr := 1, cells := [5] }, 3) := by
  decide

/-! ## Allocation and release -/

namespace itkImageBase

theorem Configured_of_Accounted (s : itkImageBase) (h : Accounted s) : Configured s := by
  rcases h with h | ⟨n, a, hn, hh, _⟩
  · exact Or.inl h
  · exact Or.inr ⟨n, a, hn, hh⟩

/-- `Initialize` on an object holding its arrays releases the three of them, in
the order size, spacing, origin, and nothing else. -/
theorem Initialize_heap_of_held (s : itkImageBase) (n a : Nat) (h : arraysHeld s n a) :
    s.Initialize.heap.released = [a + 2, a + 1, a] ++ s.heap.released ∧
    s.Initialize.heap.live = [] ∧ s.Initialize.heap.next = s.heap.next := by
  obtain ⟨⟨c1, h1, _⟩, ⟨c2, h2, _⟩, ⟨c3, h3, _⟩, hl, _⟩ := h
  simp [Initialize, Heap.deleteArray, h1, h2, h3, hl]

theorem released_SetDimension_of_ne (u : Uninit) (d : Int) (s : itkImageBase)
    (h : max d 0 ≠ s.GetDimension) :
    (SetDimension u d s).heap.released = s.Initialize.heap.released := by
  rw [SetDimension_of_ne u d s h]

/-- `SetDimension` keeps the release record in order. -/
theorem Accounted_SetDimension (u : Uninit) (d : Int) (s : itkImageBase)
    (h : Accounted s) : Accounted (SetDimension u d s) := by
  by_cases hd : max d 0 = s.GetDimension
  · rw [SetDimension_of_eq u d s hd]; exact h
  · right
    have hheld := arraysHeld_SetDimension_of_ne u d s (Configured_of_Accounted s h) hd
    have hdim : (SetDimension u d s).GetDimension = ((max d 0).toNat : Int) := by
      rw [GetDimension_SetDimension]
      exact (Int.toNat_of_nonneg (le_max_right d 0)).symm
    refine ⟨(max d 0).toNat, s.heap.next, hdim, hheld, ?_⟩
    rw [released_SetDimension_of_ne u d s hd]
    rcases h with h | ⟨n, a, _, hh, ha, hnd, hmem⟩
    · subst h
      refine ⟨by decide, by decide, ?_⟩
      intro x
      show x ∈ ([] : List Nat) ↔ 1 ≤ x ∧ x < 1
      simp
      omega
    · obtain ⟨hrel, _, _⟩ := Initialize_heap_of_held s n a hh
      have hnext : s.heap.next = a + 3 := hh.2.2.2.2
      rw [hrel, hnext]
      have na0 : a ∉ s.heap.released := fun hx => by have := (hmem a).1 hx; omega
      have na1 : a + 1 ∉ s.heap.released := fun hx => by have := (hmem (a + 1)).1 hx; omega
      have na2 : a + 2 ∉ s.heap.released := fun hx => by have := (hmem (a + 2)).1 hx; omega
      refine ⟨by omega, ?_, ?_⟩
      · simp [hnd, na0, na1, na2]
      · intro x
        simp only [List.cons_append, List.nil_append, List.mem_cons, hmem x]
        omega

theorem Accounted_configureAll (u : Uninit) :
    ∀ (calls : List Int) (s : itkImageBase), Accounted s → Accounted (configureAll u calls s)
  | [], _, h => h
  | d :: ds, s, h => Accounted_configureAll u ds _ (Accounted_SetDimension u d s h)

end itkImageBase

/-- C14 (as stated, refuted). After `SetDimension(3); SetDimension(0)` the
dimension is 0, and the destructor still releases three arrays: the zero-length
blocks 4, 5, 6 allocated by `SetDimension(0)`. -/
theorem destroy_after_zero_releases_arrays :
    (itkImageBase.configureAll Uninit.zeros [3, 0] itkImageBase.New).GetDimension = 0 ∧
    (itkImageBase.configureAll Uninit.zeros [3, 0] itkImageBase.New).heap.released =
      [3, 2, 1] ∧
    (itkImageBase.configureAll Uninit.zeros [3, 0] itkImageBase.New).Destroy.heap.released =
      [6, 5, 4, 3, 2, 1] := by
  decide

namespace itkImageBase

/-- C14 (amended). Let `s` be the object after any sequence of `SetDimension`
calls on a new object, and destroy it. Then no block is live, and every address
handed out by `new[]` (1 up to `next - 1`) has been released exactly once, and
nothing else has. The destructor itself releases nothing when the object is
still as constructed; otherwise it releases exactly the three arrays held, also
when they are the zero-length arrays of a `SetDimension` that set dimension 0.
The arrays of every earlier allocation were already released, once, before the
destructor ran. -/
theorem configure_then_destroy_releases_once (u : Uninit) (calls : List Int)
    (s : itkImageBase) (hs : s = configureAll u calls New) :
    s.Destroy.heap.live = [] ∧
    (∀ x, 1 ≤ x → x < s.Destroy.heap.next → s.Destroy.heap.released.count x = 1) ∧
    (∀ x, x ∈ s.Destroy.heap.released → 1 ≤ x ∧ x < s.Destroy.heap.next) ∧
    ((s = New ∧ s.Destroy.heap.released = []) ∨
      ∃ n a : Nat, s.GetDimension = n ∧ arraysHeld s n a ∧
        s.Destroy.heap.released = [a + 2, a + 1, a] ++ s.heap.released ∧
        (∀ x, 1 ≤ x → x < a → s.heap.released.count x = 1) ∧
        (∀ x, x ∈ s.heap.released → 1 ≤ x ∧ x < a)) := by
  have hacc : Accounted s := by
    rw [hs]; exact Accounted_configureAll u calls New (Or.inl rfl)
  rcases hacc with h | ⟨n, a, hn, hh, ha, hnd, hmem⟩
  · subst h
    refine ⟨rfl, ?_, ?_, Or.inl ⟨rfl, rfl⟩⟩
    · intro x h1 h2
      have : x < 1 := h2
      omega
    · intro x hx
      have : x ∈ ([] : List Nat) := hx
      simp at this
  · obtain ⟨hrel, hlive, hnext⟩ := Initialize_heap_of_held s n a hh
    have hn3 : s.heap.next = a + 3 := hh.2.2.2.2
    have na0 : a ∉ s.heap.released := fun hx => by have := (hmem a).1 hx; omega
    have na1 : a + 1 ∉ s.heap.released := fun hx => by have := (hmem (a + 1)).1 hx; omega
    have na2 : a + 2 ∉ s.heap.released := fun hx => by have := (hmem (a + 2)).1 hx; omega
    have hnd' : ([a + 2, a + 1, a] ++ s.heap.released).Nodup := by
      simp [hnd, na0, na1, na2]
    have hmem' : ∀ x, x ∈ [a + 2, a + 1, a] ++ s.heap.released ↔ 1 ≤ x ∧ x < a + 3 := by
      intro x
      simp only [List.cons_append, List.nil_append, List.mem_cons, hmem x]
      omega
    refine ⟨hlive, ?_, ?_, Or.inr ⟨n, a, hn, hh, hrel, ?_, fun x hx => (hmem x).1 hx⟩⟩
    · intro x h1 h2
      have h2' : x < a + 3 := by
        have : s.Destroy.heap.next = a + 3 := hnext.trans hn3
        omega
      show List.count x s.Initialize.heap.released = 1
      rw [hrel]
      exact List.count_eq_one_of_mem hnd' ((hmem' x).2 ⟨h1, h2'⟩)
    · intro x hx
      have hx' : x ∈ [a + 2, a + 1, a] ++ s.heap.released := by
        rw [← hrel]; exact hx
      have : s.Destroy.heap.next = a + 3 := hnext.trans hn3
      rw [this]
      exact (hmem' x).1 hx'
    · intro x h1 h2
      exact List.count_eq_one_of_mem hnd ((hmem x).2 ⟨h1, h2⟩)

end itkImageBase

/-- The theorem of C14 at `SetDimension(3); SetDimension(0)` and destruction:
no block is left live, and the zero-length block at address 5 has been released
exactly once. -/
theorem configure_then_destroy_releases_once_witness :
    (itkImageBase.configureAll Uninit.zeros [3, 0] itkImageBase.New).Destroy.heap.live = [] ∧
    (itkImageBase.configureAll Uninit.zeros [3, 0]
      itkImageBase.New).Destroy.heap.released.count 5 = 1 :=
  ⟨(itkImageBase.configure_then_destroy_releases_once Uninit.zeros [3, 0]
      (itkImageBase.configureAll Uninit.zeros [3, 0] itkImageBase.New) rfl).1,
   (itkImageBase.configure_then_destroy_releases_once Uninit.zeros [3, 0]
      (itkImageBase.configureAll Uninit.zeros [3, 0] itkImageBase.New) rfl).2.1 5
      (by decide) (by decide)⟩

/-! ## SetDimension after Initialize -/

namespace itkImageBase

/-- On every object reached from a new one by `SetDimension` calls, `Initialize`
(and so the destructor and every `SetDimension`) only releases live blocks. -/
theorem InitializeDefined_of_Configured (s : itkImageBase) (h : Configured s) :
    s.InitializeDefined = true ∧ ∀ d, SetDimensionDefined d s = true := by
  have hi : s.InitializeDefined = true := by
    rcases h with h | ⟨n, a, _, ⟨c1, h1, _⟩, ⟨c2, h2, _⟩, ⟨c3, h3, _⟩, hl, _⟩
    · subst h; rfl
    · simp [InitializeDefined, Heap.deleteDefined, Heap.deleteArray, h1, h2, h3, hl]
  refine ⟨hi, fun d => ?_⟩
  simp only [SetDimensionDefined, hi, ite_self]

/-- `Initialize()` leaves the dimension at -1 and the pointers as they were, so
that a following `SetDimension(d)` takes the change branch for every `d`. -/
theorem Initialize_leaves_pointers (s : itkImageBase) (d : Int) :
    s.Initialize.GetDimension = -1 ∧ s.Initialize.m_Size = s.m_Size ∧
    s.Initialize.m_Spacing = s.m_Spacing ∧ s.Initialize.m_Origin = s.m_Origin ∧
    max d 0 ≠ s.Initialize.GetDimension := by
  refine ⟨rfl, rfl, rfl, rfl, ?_⟩
  show max d 0 ≠ -1
  have := le_max_right d 0
  omega

/-- When no array was ever allocated (the three pointers are null),
`SetDimension(d)` after `Initialize()` is defined and does what its change
branch says: dimension `max(d, 0)`, three fresh arrays of `max(d, 0)` cells, one
notification, nothing released. -/
theorem SetDimension_after_Initialize_of_null (u : Uninit) (s : itkImageBase) (d : Int)
    (h : arraysAbsent s) :
    SetDimensionDefined d s.Initialize = true ∧
    (SetDimension u d s.Initialize).GetDimension = max d 0 ∧
    (SetDimension u d s.Initialize).notifications = s.notifications + 1 ∧
    (SetDimension u d s.Initialize).heap.released = s.heap.released ∧
    (∃ c, (SetDimension u d s.Initialize).m_Size =
        some { addr := s.heap.next, cells := c } ∧ c.length = (max d 0).toNat) ∧
    (∃ c, (SetDimension u d s.Initialize).m_Spacing =
        some { addr := s.heap.next + 1, cells := c } ∧ c.length = (max d 0).toNat) ∧
    (∃ c, (SetDimension u d s.Initialize).m_Origin =
        some { addr := s.heap.next + 2, cells := c } ∧ c.length = (max d 0).toNat) := by
  obtain ⟨h1, h2, h3⟩ := h
  have hne := (Initialize_leaves_pointers s d).2.2.2.2
  have hheap : s.Initialize.Initialize.heap = s.heap := by
    simp [Initialize, h1]
  refine ⟨?_, ?_⟩
  · simp [SetDimensionDefined, InitializeDefined, Initialize, h1]
  · rw [SetDimension_of_ne u d s.Initialize hne, hheap]
    exact ⟨rfl, rfl, rfl, ⟨_, rfl, by simp⟩, ⟨_, rfl, by simp⟩, ⟨_, rfl, by simp⟩⟩

/-- When the object holds its arrays, `Initialize()` releases them and keeps the
pointers; the `Initialize()` that a following `SetDimension(d)` runs passes the
same, released blocks to `delete[]` again: undefined behaviour, for every `d`. -/
theorem SetDimension_after_Initialize_of_held (s : itkImageBase) (n a : Nat) (d : Int)
    (h : arraysHeld s n a) :
    s.InitializeDefined = true ∧ SetDimensionDefined d s.Initialize = false := by
  obtain ⟨⟨c1, h1, _⟩, ⟨c2, h2, _⟩, ⟨c3, h3, _⟩, hl, _⟩ := h
  constructor
  · simp [InitializeDefined, Heap.deleteDefined, Heap.deleteArray, h1, h2, h3, hl]
  · have hne : (if d < 0 then 0 else d) ≠ -1 := by split <;> omega
    have hg : s.Initialize.GetDimension = -1 := rfl
    simp only [SetDimensionDefined, hg, ne_eq, hne, not_false_eq_true, if_true]
    simp [InitializeDefined, Initialize, Heap.deleteDefined, Heap.deleteArray, h1, h2, h3, hl]

end itkImageBase

/-- C16 (the code departs from it). `SetDimension(3); Initialize();
SetDimension(3)` on a new object. `Initialize()` releases the blocks 1, 2, 3,
leaves the dimension at -1 and the three pointers pointing at them. The second
`SetDimension(3)` takes the change branch (3 is not -1) and runs `Initialize()`
again, which finds `m_Size` non-null and passes the three released blocks to
`delete[]` a second time: a double free, undefined behaviour, instead of the
reallocation and notification the claim describes. On a new object, whose
pointers are null, the same calls are defined. -/
theorem SetDimension_after_Initialize_double_free :
    (itkImageBase.SetDimension Uninit.zeros 3 itkImageBase.New).Initialize.GetDimension = -1 ∧
    (itkImageBase.SetDimension Uninit.zeros 3 itkImageBase.New).Initialize.m_Size =
      some { addr := 1, cells := [0, 0, 0] } ∧
    (itkImageBase.SetDimension Uninit.zeros 3 itkImageBase.New).Initialize.heap.live = [] ∧
    (itkImageBase.SetDimension Uninit.zeros 3 itkImageBase.New).Initialize.heap.released =
      [3, 2, 1] ∧
    itkImageBase.SetDimensionDefined 3 (itkImageBase.SetDimension Uninit.zeros 3 itkImageBase.New) =
      true ∧
    itkImageBase.SetDimensionDefined 3
      (itkImageBase.SetDimension Uninit.zeros 3 itkImageBase.New).Initialize = false ∧
    (itkImageBase.SetDimension Uninit.zeros 3
      itkImageBase.New).Initialize.Initialize.heap.released = [3, 2, 1, 3, 2, 1] ∧
    itkImageBase.SetDimensionDefined 3 itkImageBase.New.Initialize = true := by
  decide
